import Mathlib

/-!
Verification development for the UrbanFlow route-planning and load-consolidation
engine.  The TypeScript source is embedded shallowly:

* JavaScript numbers are modelled as rationals (`ℚ`).  A JavaScript number
  field that the code checks for finiteness (`Number.isFinite`, `Number.isNaN`,
  `typeof x === 'number'`) is modelled as `Option ℚ`, with `none` standing for
  a missing or non-finite value; all other numeric fields are plain rationals.
* The two transcendental leaves of the engine — the haversine distance and
  `Math.exp` — are kept as explicit function parameters (`hv`, `GeoPrims`),
  since the algorithms only ever pass their results around.
* The unbounded `while` loops are embedded with an explicit fuel argument,
  together with theorems showing the fuel bound used by the wrappers is
  sufficient (the loops stabilise).
-/

namespace UrbanFlow

/-- Objective mode of the route planner (`"fastest" | "greenest" | "safest"`). -/
inductive RouteMode
  | fastest
  | greenest
  | safest
  deriving DecidableEq, Repr

/-- Models the `Context` record of `CostFunction.ts` / `AStar.ts`:
battery percentage, city AQI and the objective mode. -/
structure RouteContext where
  battery : ℚ
  cityAQI : ℚ
  mode : RouteMode
  deriving DecidableEq, Repr

/-- Models the `Edge` interface of `Graph.ts`. -/
structure Edge where
  id : String
  from_node : String
  to_node : String
  distance : ℚ
  congestion : ℚ
  aqi : ℚ
  restricted : Bool
  from_lat : ℚ
  from_lng : ℚ
  to_lat : ℚ
  to_lng : ℚ
  deriving DecidableEq, Repr

/-- Embedding of `calculateEdgeCost` from `CostFunction.ts`. -/
def calculateEdgeCost (edge : Edge) (context : RouteContext) : ℚ :=
  let travelTime := edge.distance * (1 + edge.congestion)
  let carbon := edge.distance * (2/10)
  let pollutionExposure := edge.aqi
  let batteryPenalty := if context.battery < 25 then edge.distance * 3 else 0
  let restrictedPenalty := if edge.restricted then 10000 else 0
  match context.mode with
  | RouteMode.fastest =>
      2 * travelTime + (1/2) * pollutionExposure + batteryPenalty + restrictedPenalty
  | RouteMode.greenest =>
      2 * carbon + pollutionExposure + batteryPenalty + restrictedPenalty
  | RouteMode.safest =>
      2 * pollutionExposure + travelTime + batteryPenalty + restrictedPenalty

/-- Modelled from the spec: the reference edge-cost definition of section 4.2
(CostFunction), written independently from the spec text, to be compared with
the embedding `calculateEdgeCost` of the source. -/
def specEdgeCost (edge : Edge) (context : RouteContext) : ℚ :=
  let travelTime := edge.distance * (1 + edge.congestion)
  let carbon := edge.distance * (2/10)
  let pollutionExposure := edge.aqi
  let batteryPenalty := if context.battery < 25 then edge.distance * 3 else 0
  let restrictedPenalty := if edge.restricted then 10000 else 0
  let base : ℚ :=
    match context.mode with
    | RouteMode.fastest => 2 * travelTime + (1/2) * pollutionExposure
    | RouteMode.greenest => 2 * carbon + pollutionExposure
    | RouteMode.safest => 2 * pollutionExposure + travelTime
  base + batteryPenalty + restrictedPenalty

/-- A graph is modelled as the association list underlying the
`Record<string, Edge[]>` of `Graph.ts`: one entry per `from_node` key, each
holding the bucket of outgoing edges in insertion order. -/
def GraphA : Type := List (String × List Edge)

/-- Models `graph[edge.from_node].push(edge)` together with the creation of a
fresh empty bucket for an unseen key. -/
def pushEdge : GraphA → Edge → GraphA
  | [], e => [(e.from_node, [e])]
  | (k, es) :: rest, e =>
      if k = e.from_node then (k, es ++ [e]) :: rest
      else (k, es) :: pushEdge rest e

/-- Embedding of `buildGraph` from `Graph.ts`: group the edges by origin node,
preserving input order inside each bucket. -/
def buildGraph (edges : List Edge) : GraphA :=
  edges.foldl pushEdge []

/-- Models the lookup `graph[node] || []`: the bucket of a known key, the empty
list for an unknown one. -/
def getEdges : GraphA → String → List Edge
  | [], _ => []
  | (k, es) :: rest, n => if k = n then es else getEdges rest n

/-- Total number of edges stored in a graph (used as the fuel bound of the
search loop). -/
def graphSizeA (g : GraphA) : ℕ :=
  (g.map (fun kv => kv.2.length)).sum

/-- Models the `NodeState` record of `AStar.ts`. -/
structure NodeState where
  node : String
  cost : ℚ
  path : List Edge
  lat : ℚ
  lng : ℚ
  deriving DecidableEq, Repr

/-- The priority queue of `PriorityQueue.ts` keeps its backing array sorted by
priority ascending (it re-sorts with a stable sort after every push, and the
array is sorted before the push).  Pushing therefore inserts the new item
after every element of priority less than or equal to its own. -/
def enqueuePQ (q : List (NodeState × ℚ)) (x : NodeState) (p : ℚ) :
    List (NodeState × ℚ) :=
  match q with
  | [] => [(x, p)]
  | (y, py) :: rest =>
      if py ≤ p then (y, py) :: enqueuePQ rest x p else (x, p) :: (y, py) :: rest

/-- One expansion step of the A* loop: push every outgoing edge of the current
state whose target is not yet visited.  Models the `for (const edge of
neighbors)` body of `runAStar`. -/
def pushNeighbors (hv : ℚ → ℚ → ℚ → ℚ → ℚ) (context : RouteContext)
    (destinationLat destinationLng : ℚ) (cur : NodeState) (visited : List String)
    (q : List (NodeState × ℚ)) (neighbors : List Edge) : List (NodeState × ℚ) :=
  neighbors.foldl (fun acc e =>
    if e.to_node ∈ visited then acc
    else
      let gCost := cur.cost + calculateEdgeCost e context
      let hCost := hv e.to_lat e.to_lng destinationLat destinationLng
      enqueuePQ acc
        { node := e.to_node, cost := gCost, path := cur.path ++ [e],
          lat := e.to_lat, lng := e.to_lng }
        (gCost + hCost)) q

/-- The `while (!open.isEmpty())` loop of `runAStar`, with an explicit fuel
argument; `aStarLoop_fuel_irrelevant` shows any fuel of at least
`queue.length + potential` gives the loop's limit value, so the fuel bound
used by `runAStar` below is just a termination device, not a semantic cutoff.
The heuristic `hv` stands for the haversine function of the source
(transcendental, hence kept abstract). -/
def aStarLoop (hv : ℚ → ℚ → ℚ → ℚ → ℚ) (g : GraphA) (goal : String)
    (context : RouteContext) (destinationLat destinationLng : ℚ) :
    ℕ → List (NodeState × ℚ) → List String → Option (List Edge)
  | 0, _, _ => none
  | _ + 1, [], _ => none
  | fuel + 1, (cur, _) :: rest, visited =>
      if cur.node = goal then some cur.path
      else if cur.node ∈ visited then
        aStarLoop hv g goal context destinationLat destinationLng fuel rest visited
      else
        let visited1 := cur.node :: visited
        let neighbors := getEdges g cur.node
        let queue1 := pushNeighbors hv context destinationLat destinationLng
          cur visited1 rest neighbors
        aStarLoop hv g goal context destinationLat destinationLng fuel queue1 visited1

/-- Embedding of `runAStar` from `AStar.ts`.  The start position is read from
the first outgoing edge of the start node; a start node with no outgoing edge
yields `none` immediately. -/
def runAStar (hv : ℚ → ℚ → ℚ → ℚ → ℚ) (g : GraphA) (start goal : String)
    (context : RouteContext) (destinationLat destinationLng : ℚ) :
    Option (List Edge) :=
  match getEdges g start with
  | [] => none
  | e0 :: _ =>
      aStarLoop hv g goal context destinationLat destinationLng
        (graphSizeA g + 1)
        [({ node := start, cost := 0, path := [], lat := e0.from_lat,
            lng := e0.from_lng }, 0)] []

/-- The record returned by `runSmartRouteRealtime` when a destination edge
exists: one optional path per objective mode. -/
structure PlanOutcome where
  fastest : Option (List Edge)
  greenest : Option (List Edge)
  safest : Option (List Edge)
  deriving DecidableEq, Repr

/-- Embedding of `runSmartRouteRealtime` from `SmartRoute.ts`: build the graph,
locate the destination coordinates from any edge ending at `goal` (returning
`none` for the whole call when there is none), then run the search once per
mode. -/
def runSmartRouteRealtime (hv : ℚ → ℚ → ℚ → ℚ → ℚ) (edges : List Edge)
    (start goal : String) (battery cityAQI : ℚ) : Option PlanOutcome :=
  let g := buildGraph edges
  match edges.find? (fun e => e.to_node = goal) with
  | none => none
  | some destinationEdge =>
      some
        { fastest := runAStar hv g start goal
            { battery := battery, cityAQI := cityAQI, mode := RouteMode.fastest }
            destinationEdge.to_lat destinationEdge.to_lng,
          greenest := runAStar hv g start goal
            { battery := battery, cityAQI := cityAQI, mode := RouteMode.greenest }
            destinationEdge.to_lat destinationEdge.to_lng,
          safest := runAStar hv g start goal
            { battery := battery, cityAQI := cityAQI, mode := RouteMode.safest }
            destinationEdge.to_lat destinationEdge.to_lng }

/-- A latitude/longitude pair (the `LatLng` type of `LoadMatcher`). -/
structure LatLng where
  lat : ℚ
  lng : ℚ
  deriving DecidableEq, Repr

/-- The two geometric primitives of `LoadMatcher` that are transcendental in
the source and therefore kept abstract: `pd` models `pointDistance` (haversine
between two points) and `rexp` models `Math.exp`. -/
structure GeoPrims where
  pd : LatLng → LatLng → ℚ
  rexp : ℚ → ℚ

/-- Models `Math.round`: the nearest integer, half-way cases rounding up. -/
def jsRound (q : ℚ) : ℤ :=
  ⌊q + 1/2⌋

/-- Models `Math.round(x * 10) / 10` (rounding to one decimal). -/
def round1 (q : ℚ) : ℚ :=
  (jsRound (q * 10) : ℚ) / 10

/-- Models `Math.round(x * 1000) / 1000` (rounding to three decimals). -/
def round3 (q : ℚ) : ℚ :=
  (jsRound (q * 1000) : ℚ) / 1000

/-- Embedding of `clamp01`. -/
def clamp01 (value : ℚ) : ℚ :=
  max 0 (min 1 value)

/-- Embedding of `routeAwareDistance`. -/
def routeAwareDistance (directDistanceKm trafficFactor : ℚ) : ℚ :=
  directDistanceKm * (108/100 + min (18/100) ((trafficFactor - 1) * (4/10)))

/-- Embedding of `normalizeWeight`; in the rational model every value is
finite, so only the positivity test of the source remains. -/
def normalizeWeight (value : ℚ) : ℚ :=
  if 0 < value then value else 0

/-- Models the `ConsolidationVehicle` record.  The optional `lat`/`lng`
fields are `Option ℚ`, `none` standing for a missing or `NaN` value. -/
structure ConsolidationVehicle where
  id : String
  capacity : ℚ
  current_load : ℚ
  status : Option String
  lat : Option ℚ
  lng : Option ℚ
  deriving DecidableEq, Repr

/-- Models the `ConsolidationDelivery` record.  Coordinates are `Option ℚ`,
`none` standing for a non-finite number (the only operation the source ever
performs on a possibly non-finite coordinate is the `Number.isFinite` test of
the eligibility filter). -/
structure ConsolidationDelivery where
  id : String
  weight : ℚ
  from_lat : Option ℚ
  from_lng : Option ℚ
  to_lat : Option ℚ
  to_lng : Option ℚ
  status : String
  deriving DecidableEq, Repr

/-- Reads a possibly non-finite number, defaulting to `0`; after the
eligibility filter all coordinates are `some`, so the default is never
observed on the filtered data the engine works with. -/
def numOf (x : Option ℚ) : ℚ :=
  x.getD 0

/-- The pickup point `{lat: d.from_lat, lng: d.from_lng}` of a delivery. -/
def pickupPoint (d : ConsolidationDelivery) : LatLng :=
  { lat := numOf d.from_lat, lng := numOf d.from_lng }

/-- The drop point `{lat: d.to_lat, lng: d.to_lng}` of a delivery. -/
def dropPoint (d : ConsolidationDelivery) : LatLng :=
  { lat := numOf d.to_lat, lng := numOf d.to_lng }

/-- The `'pickup' | 'drop'` selector of `nearestOrder`, as a boolean flag
(`true` = pickup). -/
def keyPoint (isPickup : Bool) (d : ConsolidationDelivery) : LatLng :=
  if isPickup then pickupPoint d else dropPoint d

/-- Embedding of `normalizeVehiclePoint`: the vehicle position when both
coordinates are present numbers, `null` otherwise. -/
def normalizeVehiclePoint (vehicle : ConsolidationVehicle) : Option LatLng :=
  match vehicle.lat, vehicle.lng with
  | some a, some b => some { lat := a, lng := b }
  | _, _ => none

/-- The scoring-weight profile (`ScoringWeights`). -/
structure ScoringWeights where
  utilization : ℚ
  savings : ℚ
  costEfficiency : ℚ
  deviationPenalty : ℚ
  overloadRisk : ℚ
  deriving DecidableEq, Repr

/-- The value returned by `getTrafficAwareWeights`. -/
structure TrafficProfile where
  weights : ScoringWeights
  trafficFactor : ℚ
  localDensity : ℕ
  deriving DecidableEq, Repr

/-- Embedding of `getTrafficAwareWeights`: count the other vehicles with a
usable position within 6 km and pick the matching weight profile. -/
def getTrafficAwareWeights (P : GeoPrims) (vehicle : ConsolidationVehicle)
    (vehicles : List ConsolidationVehicle) : TrafficProfile :=
  match normalizeVehiclePoint vehicle with
  | none =>
      { weights := { utilization := 4/10, savings := 3/10, costEfficiency := 1/10,
                     deviationPenalty := 15/100, overloadRisk := 5/100 },
        trafficFactor := 1, localDensity := 0 }
  | some vehiclePoint =>
      let nearbyVehicles :=
        (vehicles.filter (fun other =>
          if other.id = vehicle.id then false
          else
            match normalizeVehiclePoint other with
            | none => false
            | some point => P.pd vehiclePoint point ≤ 6)).length
      if nearbyVehicles ≥ 5 then
        { weights := { utilization := 5/10, savings := 25/100, costEfficiency := 8/100,
                       deviationPenalty := 14/100, overloadRisk := 3/100 },
          trafficFactor := 12/10, localDensity := nearbyVehicles }
      else if nearbyVehicles ≤ 1 then
        { weights := { utilization := 32/100, savings := 33/100, costEfficiency := 2/10,
                       deviationPenalty := 1/10, overloadRisk := 5/100 },
          trafficFactor := 105/100, localDensity := nearbyVehicles }
      else
        { weights := { utilization := 4/10, savings := 3/10, costEfficiency := 1/10,
                       deviationPenalty := 15/100, overloadRisk := 5/100 },
          trafficFactor := 112/100, localDensity := nearbyVehicles }

/-- Embedding of `nearestOrder`: the candidate whose pickup (resp. drop) point
is strictly closest to `origin`, earlier candidates winning ties.  The source
starts from `minDistance = +Infinity`, so the first candidate always becomes
the provisional nearest; the fold below mirrors that with an `Option`
accumulator. -/
def nearestOrder (P : GeoPrims) (origin : LatLng)
    (candidates : List ConsolidationDelivery) (isPickup : Bool) :
    Option ConsolidationDelivery :=
  (candidates.foldl (fun acc candidate =>
    let d := P.pd origin (keyPoint isPickup candidate)
    match acc with
    | none => some (candidate, d)
    | some best => if d < best.2 then some (candidate, d) else acc) none).map
    Prod.fst

/-- One of the two `while (...Remaining.length > 0)` loops of
`simulateBundleRoute`: repeatedly hop to the nearest remaining stop, remove it
(by id, as `findIndex`/`splice` does) and accumulate the direct distance and
the stop list.  Fuel-driven; the callers pass the length of the remaining
list, which is exactly the number of iterations the source loop performs. -/
def visitLoop (P : GeoPrims) (isPickup : Bool) :
    ℕ → LatLng → List ConsolidationDelivery → ℚ → List LatLng →
    LatLng × ℚ × List LatLng
  | 0, cursor, _, acc, stops => (cursor, acc, stops)
  | fuel + 1, cursor, remaining, acc, stops =>
      if remaining.isEmpty then (cursor, acc, stops)
      else
        match nearestOrder P cursor remaining isPickup with
        | none => (cursor, acc, stops)
        | some next =>
            let nextPoint := keyPoint isPickup next
            visitLoop P isPickup fuel nextPoint
              (remaining.eraseP (fun d => d.id = next.id))
              (acc + P.pd cursor nextPoint) (stops ++ [nextPoint])

/-- The value returned by `simulateBundleRoute`. -/
structure SimResult where
  routeDistanceKm : ℚ
  durationMin : ℤ
  routeCoordinates : List LatLng
  deriving DecidableEq, Repr

/-- Embedding of `simulateBundleRoute`: nearest-neighbour over all pickups,
then over all drops, then the road-aware adjustment, the duration estimate at
28 km/h scaled by the traffic factor, and one-decimal rounding of the
distance. -/
def simulateBundleRoute (P : GeoPrims) (vehiclePoint : LatLng)
    (bundle : List ConsolidationDelivery) (trafficFactor : ℚ) : SimResult :=
  let afterPickups := visitLoop P true bundle.length vehiclePoint bundle 0 [vehiclePoint]
  let afterDrops := visitLoop P false bundle.length afterPickups.1 bundle
    afterPickups.2.1 afterPickups.2.2
  let routeDistanceKm := routeAwareDistance afterDrops.2.1 trafficFactor
  let durationMin := jsRound (routeDistanceKm / 28 * 60 * trafficFactor)
  { routeDistanceKm := round1 routeDistanceKm,
    durationMin := durationMin,
    routeCoordinates := afterDrops.2.2 }

/-- Total bundle weight `bundle.reduce((sum, d) => sum + normalizeWeight(d.weight), 0)`. -/
def bundleWeight (bundle : List ConsolidationDelivery) : ℚ :=
  bundle.foldl (fun sum d => sum + normalizeWeight d.weight) 0

/-- The value returned by `evaluateBundleScore`.  The field `savingsFrac`
models the source field `savingsRatio`. -/
structure EvalResult where
  score : ℚ
  savingsKm : ℚ
  savingsFrac : ℚ
  utilization : ℚ
  baselineDistance : ℚ
  routeDistanceKm : ℚ
  durationMin : ℤ
  routeCoordinates : List LatLng
  deriving DecidableEq, Repr

/-- Embedding of `evaluateBundleScore`. -/
def evaluateBundleScore (P : GeoPrims) (bundle : List ConsolidationDelivery)
    (vehicle : ConsolidationVehicle) (vehiclePoint : LatLng)
    (weights : ScoringWeights) (trafficFactor : ℚ) : EvalResult :=
  let vehicleCapacity := max 1 (normalizeWeight vehicle.capacity)
  let currentLoad := normalizeWeight vehicle.current_load
  let availableCapacity := max 0 (vehicleCapacity - currentLoad)
  let weightOfBundle := bundleWeight bundle
  let utilizationGain :=
    if 0 < availableCapacity then clamp01 (weightOfBundle / availableCapacity) else 0
  let baselineDistance := bundle.foldl (fun sum d =>
    sum + routeAwareDistance
      (P.pd vehiclePoint (pickupPoint d) + P.pd (pickupPoint d) (dropPoint d))
      trafficFactor) 0
  let simulated := simulateBundleRoute P vehiclePoint bundle trafficFactor
  let savingsKm := max 0 (baselineDistance - simulated.routeDistanceKm)
  let savingsFrac :=
    if 0 < baselineDistance then clamp01 (savingsKm / baselineDistance) else 0
  let costSeparate := baselineDistance * 14
  let costBundle := simulated.routeDistanceKm * 14
  let costEfficiency :=
    if 0 < costSeparate then clamp01 ((costSeparate - costBundle) / costSeparate) else 0
  let extraDeviationKm := max 0 (simulated.routeDistanceKm - baselineDistance)
  let deviationPenalty := clamp01 (P.rexp (max 0 (extraDeviationKm - 15) / 15) - 1)
  let fillFrac :=
    if 0 < vehicleCapacity then (currentLoad + weightOfBundle) / vehicleCapacity else 0
  let overloadRisk :=
    if 9/10 < fillFrac then clamp01 ((fillFrac - 9/10) / (1/10)) else 0
  let score :=
    weights.utilization * utilizationGain + weights.savings * savingsFrac +
      weights.costEfficiency * costEfficiency -
      weights.deviationPenalty * deviationPenalty -
      weights.overloadRisk * overloadRisk
  { score := round3 score,
    savingsKm := round1 savingsKm,
    savingsFrac := round3 savingsFrac,
    utilization := (jsRound (clamp01 fillFrac * 1000) : ℚ) / 10,
    baselineDistance := round1 baselineDistance,
    routeDistanceKm := simulated.routeDistanceKm,
    durationMin := simulated.durationMin,
    routeCoordinates := simulated.routeCoordinates }

/-- The savings matrix (`Map<string, number>`), modelled as an association
list with the most recent `set` at the head. -/
def SavingsMatrix : Type := List (String × ℚ)

/-- Models `matrix.get(key) ?? 0`: the most recently set binding, `0` when the
key is absent. -/
def getSM (matrix : SavingsMatrix) (key : String) : ℚ :=
  ((matrix.find? (fun kv => kv.1 = key)).map Prod.snd).getD 0

/-- The classic-savings value stored for an unordered candidate pair in
`buildSavingsMatrix`. -/
def pairSavingsValue (P : GeoPrims) (vehiclePoint : LatLng) (trafficFactor : ℚ)
    (a b : ConsolidationDelivery) : ℚ :=
  let depotToA := routeAwareDistance (P.pd vehiclePoint (pickupPoint a)) trafficFactor
  let depotToB := routeAwareDistance (P.pd vehiclePoint (pickupPoint b)) trafficFactor
  let aToB := routeAwareDistance (P.pd (pickupPoint a) (pickupPoint b)) trafficFactor
  max 0 (depotToA + depotToB - aToB)

/-- Embedding of the double loop of `buildSavingsMatrix` (`i` outer ascending,
`j = i+1..` inner), storing each pair symmetrically under both string keys. -/
def buildSavingsMatrixAux (P : GeoPrims) (vehiclePoint : LatLng)
    (trafficFactor : ℚ) : List ConsolidationDelivery → SavingsMatrix → SavingsMatrix
  | [], matrix => matrix
  | a :: rest, matrix =>
      buildSavingsMatrixAux P vehiclePoint trafficFactor rest
        (rest.foldl (fun m b =>
          let savings := pairSavingsValue P vehiclePoint trafficFactor a b
          (b.id ++ "|" ++ a.id, savings) :: (a.id ++ "|" ++ b.id, savings) :: m)
          matrix)

/-- Embedding of `buildSavingsMatrix`. -/
def buildSavingsMatrix (P : GeoPrims) (vehiclePoint : LatLng)
    (candidates : List ConsolidationDelivery) (trafficFactor : ℚ) : SavingsMatrix :=
  buildSavingsMatrixAux P vehiclePoint trafficFactor candidates []

/-- Embedding of `pairSavings`. -/
def pairSavings (matrix : SavingsMatrix) (a b : String) : ℚ :=
  getSM matrix (a ++ "|" ++ b)

/-- Stable insertion (ascending by the rational key, a new element going after
every earlier element with a key less than or equal to its own); used to model
the stable `Array.prototype.sort` with comparator `a.key - b.key`. -/
def insertByKeyAsc (x : ConsolidationDelivery × ℚ) :
    List (ConsolidationDelivery × ℚ) → List (ConsolidationDelivery × ℚ)
  | [] => [x]
  | y :: ys => if y.2 < x.2 then y :: insertByKeyAsc x ys else x :: y :: ys

/-- Stable sort ascending by the rational key. -/
def sortByKeyAsc (l : List (ConsolidationDelivery × ℚ)) :
    List (ConsolidationDelivery × ℚ) :=
  l.foldr insertByKeyAsc []

/-- Embedding of `pickVehicleCandidates`: pickup distance per delivery, radius
filter at 30 km, sort ascending by pickup distance, truncate to 24. -/
def pickVehicleCandidates (P : GeoPrims) (vehiclePoint : LatLng)
    (deliveries : List ConsolidationDelivery) : List ConsolidationDelivery :=
  (((sortByKeyAsc
    ((deliveries.map (fun d => (d, P.pd vehiclePoint (pickupPoint d)))).filter
      (fun item => item.2 ≤ 30))).take 24).map Prod.fst)

/-- Embedding of `addDeliveryIfFits`: `null` when the extended bundle would
exceed the available capacity, otherwise the extended bundle. -/
def addDeliveryIfFits (bundle : List ConsolidationDelivery)
    (candidate : ConsolidationDelivery) (availableCapacity : ℚ) :
    Option (List ConsolidationDelivery) :=
  if bundleWeight bundle + normalizeWeight candidate.weight > availableCapacity then
    none
  else
    some (bundle ++ [candidate])

/-- The body of the inner `remaining.forEach` of the bundle-growth loop: keep
the incumbent unless the candidate fits and its boosted score beats the
incumbent's score by strictly more than the `0.02` threshold. -/
def findBestNextStep (P : GeoPrims) (vehicle : ConsolidationVehicle)
    (vehiclePoint : LatLng) (weights : ScoringWeights) (trafficFactor : ℚ)
    (savingsMatrix : SavingsMatrix) (availableCapacity : ℚ)
    (bundle : List ConsolidationDelivery)
    (acc : Option ConsolidationDelivery × EvalResult)
    (candidate : ConsolidationDelivery) :
    Option ConsolidationDelivery × EvalResult :=
  match addDeliveryIfFits bundle candidate availableCapacity with
  | none => acc
  | some expanded =>
      let pairBonus :=
        (bundle.foldl (fun sum item =>
          sum + pairSavings savingsMatrix item.id candidate.id) 0) /
          max 1 (bundle.length : ℚ)
      let expandedEval := evaluateBundleScore P expanded vehicle vehiclePoint
        weights trafficFactor
      let boostedScore := expandedEval.score + min (15/100) (pairBonus / 20)
      if boostedScore > acc.2.score + 2/100 then
        (some candidate, { expandedEval with score := round3 boostedScore })
      else acc

/-- The inner `remaining.forEach` of the bundle-growth loop: fold over the
remaining candidates keeping the best strict improvement (threshold `0.02`)
of the boosted score over the incumbent. -/
def findBestNext (P : GeoPrims) (vehicle : ConsolidationVehicle)
    (vehiclePoint : LatLng) (weights : ScoringWeights) (trafficFactor : ℚ)
    (savingsMatrix : SavingsMatrix) (availableCapacity : ℚ)
    (candidates : List ConsolidationDelivery)
    (bundle : List ConsolidationDelivery) (currentEval : EvalResult) :
    Option ConsolidationDelivery × EvalResult :=
  let remaining := candidates.filter (fun c => ¬ bundle.any (fun b => b.id = c.id))
  remaining.foldl
    (findBestNextStep P vehicle vehiclePoint weights trafficFactor savingsMatrix
      availableCapacity bundle)
    (none, currentEval)

/-- The `while (expand && currentBundle.length < MAX_BUNDLE_SIZE)` loop of
`buildBestBundleForVehicle`, fuel-driven.  Each continuing iteration grows the
bundle by one delivery, so fuel `MAX_BUNDLE_SIZE = 4` (the value the caller
passes) is enough for any bundle the loop is started on. -/
def growBundle (P : GeoPrims) (vehicle : ConsolidationVehicle)
    (vehiclePoint : LatLng) (weights : ScoringWeights) (trafficFactor : ℚ)
    (savingsMatrix : SavingsMatrix) (availableCapacity : ℚ)
    (candidates : List ConsolidationDelivery) :
    ℕ → List ConsolidationDelivery → EvalResult →
    List ConsolidationDelivery × EvalResult
  | 0, bundle, currentEval => (bundle, currentEval)
  | fuel + 1, bundle, currentEval =>
      if bundle.length < 4 then
        match findBestNext P vehicle vehiclePoint weights trafficFactor
          savingsMatrix availableCapacity candidates bundle currentEval with
        | (none, _) => (bundle, currentEval)
        | (some bestNext, bestNextEval) =>
            growBundle P vehicle vehiclePoint weights trafficFactor savingsMatrix
              availableCapacity candidates fuel (bundle ++ [bestNext]) bestNextEval
      else (bundle, currentEval)

/-- The suggestion record (`ConsolidationSuggestion`).  The field
`savingsFrac` models the source field `savingsRatio`. -/
structure ConsolidationSuggestion where
  vehicleId : String
  deliveryIds : List String
  orders : List ConsolidationDelivery
  route : List LatLng
  distanceKm : ℚ
  durationMin : ℤ
  savingsKm : ℚ
  savingsFrac : ℚ
  score : ℚ
  utilization : ℚ
  deriving DecidableEq, Repr

/-- Assembling the suggestion record from the final bundle and its evaluation. -/
def suggestionOfBundle (vehicle : ConsolidationVehicle)
    (bundle : List ConsolidationDelivery) (evalResult : EvalResult) :
    ConsolidationSuggestion :=
  { vehicleId := vehicle.id,
    deliveryIds := bundle.map (fun d => d.id),
    orders := bundle,
    route := evalResult.routeCoordinates,
    distanceKm := evalResult.routeDistanceKm,
    durationMin := evalResult.durationMin,
    savingsKm := evalResult.savingsKm,
    savingsFrac := evalResult.savingsFrac,
    score := evalResult.score,
    utilization := evalResult.utilization }

/-- The body of the `seeds.forEach` of `buildBestBundleForVehicle`: start a
bundle at the seed if it fits, grow it greedily, and keep whichever of the
incumbent and the grown suggestion scores strictly higher. -/
def buildSeedStep (P : GeoPrims) (vehicle : ConsolidationVehicle)
    (vehiclePoint : LatLng) (weights : ScoringWeights) (trafficFactor : ℚ)
    (savingsMatrix : SavingsMatrix) (availableCapacity : ℚ)
    (candidates : List ConsolidationDelivery)
    (bestSuggestion : Option ConsolidationSuggestion)
    (seed : ConsolidationDelivery) : Option ConsolidationSuggestion :=
  match addDeliveryIfFits [] seed availableCapacity with
  | none => bestSuggestion
  | some seedBundle =>
      let seedEval := evaluateBundleScore P seedBundle vehicle vehiclePoint
        weights trafficFactor
      let grown := growBundle P vehicle vehiclePoint weights trafficFactor
        savingsMatrix availableCapacity candidates 4 seedBundle seedEval
      let suggestion := suggestionOfBundle vehicle grown.1 grown.2
      match bestSuggestion with
      | none => some suggestion
      | some best =>
          if suggestion.score > best.score then some suggestion else some best

/-- Embedding of `buildBestBundleForVehicle`: per-seed greedy growth, keeping
the seed-derived suggestion with the strictly highest score. -/
def buildBestBundleForVehicle (P : GeoPrims) (vehicle : ConsolidationVehicle)
    (deliveries : List ConsolidationDelivery)
    (allVehicles : List ConsolidationVehicle) : Option ConsolidationSuggestion :=
  match normalizeVehiclePoint vehicle with
  | none => none
  | some vehiclePoint =>
      let availableCapacity :=
        max 0 (normalizeWeight vehicle.capacity - normalizeWeight vehicle.current_load)
      if availableCapacity ≤ 0 then none
      else
        let candidates := pickVehicleCandidates P vehiclePoint deliveries
        if candidates.isEmpty then none
        else
          let profile := getTrafficAwareWeights P vehicle allVehicles
          let savingsMatrix := buildSavingsMatrix P vehiclePoint candidates
            profile.trafficFactor
          let seeds := ((sortByKeyAsc
            (candidates.map (fun d => (d, P.pd vehiclePoint (pickupPoint d))))).map
            Prod.fst).take 8
          seeds.foldl
            (buildSeedStep P vehicle vehiclePoint profile.weights
              profile.trafficFactor savingsMatrix availableCapacity candidates)
            none

/-- The compatibility cluster record (`ClusterCompat`). -/
structure ClusterCompat where
  vehicleId : String
  orders : List ConsolidationDelivery
  utilization : ℚ
  deriving DecidableEq, Repr

/-- The result record (`ConsolidationResult`). -/
structure ConsolidationResult where
  clusters : List ClusterCompat
  suggestions : List ConsolidationSuggestion
  tripsAvoided : ℤ
  fuelSaved : ℚ
  costSaved : ℤ
  deriving DecidableEq, Repr

/-- The eligibility filter at the top of `matchLoads`: status `'pending'` and
all four coordinates finite. -/
def isEligibleDelivery (d : ConsolidationDelivery) : Bool :=
  d.status = "pending" && d.from_lat.isSome && d.from_lng.isSome &&
    d.to_lat.isSome && d.to_lng.isSome

/-- Modelled from the spec: the eligibility predicate of the CandidateSelector
section — status in `{pending, assigned}` and all four coordinates finite —
written from the spec text for comparison with the source filter
`isEligibleDelivery`. -/
def specEligibleDelivery (d : ConsolidationDelivery) : Bool :=
  (d.status = "pending" || d.status = "assigned") && d.from_lat.isSome &&
    d.from_lng.isSome && d.to_lat.isSome && d.to_lng.isSome

/-- Stable insertion for the suggestion sort with comparator
`(a, b) => b.score - a.score` (descending by score, earlier suggestions
winning ties). -/
def insertByScoreDesc (x : ConsolidationSuggestion) :
    List ConsolidationSuggestion → List ConsolidationSuggestion
  | [] => [x]
  | y :: ys => if y.score > x.score then y :: insertByScoreDesc x ys else x :: y :: ys

/-- Stable sort of the per-vehicle suggestions, descending by score. -/
def sortByScoreDesc (l : List ConsolidationSuggestion) :
    List ConsolidationSuggestion :=
  l.foldr insertByScoreDesc []

/-- The greedy conflict-resolution pass of `matchLoads`: walk the sorted
suggestions, skip any suggestion sharing a delivery id with an
already-accepted one, otherwise accept it and record its delivery ids. -/
def dedupeSuggestions :
    List ConsolidationSuggestion → List String → List ConsolidationSuggestion
  | [], _ => []
  | s :: rest, assignedIds =>
      if s.deliveryIds.any (fun i => i ∈ assignedIds) then
        dedupeSuggestions rest assignedIds
      else
        s :: dedupeSuggestions rest (assignedIds ++ s.deliveryIds)

/-- Embedding of `matchLoads`. -/
def matchLoads (P : GeoPrims) (vehicles : List ConsolidationVehicle)
    (deliveries : List ConsolidationDelivery) : ConsolidationResult :=
  let openDeliveries := deliveries.filter isEligibleDelivery
  if openDeliveries.isEmpty || vehicles.isEmpty then
    { clusters := [], suggestions := [], tripsAvoided := 0, fuelSaved := 0,
      costSaved := 0 }
  else
    let suggestions := sortByScoreDesc
      ((vehicles.map (fun v =>
        buildBestBundleForVehicle P v openDeliveries vehicles)).filterMap id)
    let uniqueSuggestions := dedupeSuggestions suggestions []
    let clusters := uniqueSuggestions.map (fun s =>
      { vehicleId := s.vehicleId, orders := s.orders,
        utilization := s.utilization : ClusterCompat })
    let groupedTrips := (uniqueSuggestions.map (fun s => s.deliveryIds.length)).sum
    let tripsAvoided := max 0 ((groupedTrips : ℤ) - uniqueSuggestions.length)
    let totalSavingsKm := uniqueSuggestions.foldl (fun sum s => sum + s.savingsKm) 0
    let fuelSaved := (jsRound (totalSavingsKm * (12/100) * 10) : ℚ) / 10
    let costSaved := jsRound (fuelSaved * 100)
    { clusters := clusters, suggestions := uniqueSuggestions,
      tripsAvoided := tripsAvoided, fuelSaved := fuelSaved, costSaved := costSaved }

/-- The single straight test edge of the spec scenario in section 8:
distance 10, congestion 0, aqi 0, unrestricted. -/
def straightEdgeAB : Edge :=
  { id := "e1", from_node := "A", to_node := "B", distance := 10, congestion := 0,
    aqi := 0, restricted := false, from_lat := 0, from_lng := 0, to_lat := 2, to_lng := 2 }

/-- Fastest-mode context with full battery and clean air. -/
def fullBatteryFastest : RouteContext :=
  { battery := 100, cityAQI := 0, mode := RouteMode.fastest }

/-- Constant-zero heuristic, used to instantiate the abstract haversine
parameter in concrete witnesses. -/
def hv0 : ℚ → ℚ → ℚ → ℚ → ℚ :=
  fun _ _ _ _ => 0

/-- A contiguous edge chain from `start` to `goal`: empty only when the two
coincide, otherwise each edge leaves the node the previous one entered, the
first leaving `start` and the last entering `goal`. -/
def isChainB (start goal : String) : List Edge → Bool
  | [] => start = goal
  | e :: rest => start = e.from_node && isChainB e.to_node goal rest

/-- Reachability along the directed edges of an edge list. -/
inductive Reachable (edges : List Edge) (start : String) : String → Prop
  | refl : Reachable edges start start
  | step {n : String} {e : Edge} : Reachable edges start n → e ∈ edges →
      e.from_node = n → Reachable edges start e.to_node

/-- The restricted direct edge A→B of the spec's avoidance scenario
(distance 10, congestion 0, aqi 0, `restricted = true`). -/
def restrictedAB : Edge :=
  { id := "e1", from_node := "A", to_node := "B", distance := 10, congestion := 0,
    aqi := 0, restricted := true, from_lat := 0, from_lng := 0, to_lat := 2, to_lng := 2 }

/-- The unrestricted detour leg A→C of the avoidance scenario. -/
def edgeAC (dAC : ℚ) : Edge :=
  { id := "e2", from_node := "A", to_node := "C", distance := dAC, congestion := 0,
    aqi := 0, restricted := false, from_lat := 0, from_lng := 0, to_lat := 1, to_lng := 1 }

/-- The unrestricted detour leg C→B of the avoidance scenario. -/
def edgeCB (dCB : ℚ) : Edge :=
  { id := "e3", from_node := "C", to_node := "B", distance := dCB, congestion := 0,
    aqi := 0, restricted := false, from_lat := 1, from_lng := 1, to_lat := 2, to_lng := 2 }

/-- Concrete geometric primitives for witnesses: distance identically `0`
(all points coincide) and `exp` evaluated only at `0`, where it is `1`. -/
def P0 : GeoPrims :=
  { pd := fun _ _ => 0, rexp := fun _ => 1 }

/-- A well-formed delivery with status `'assigned'` and finite coordinates. -/
def dAssigned : ConsolidationDelivery :=
  { id := "d1", weight := 4, from_lat := some 0, from_lng := some 0,
    to_lat := some 0, to_lng := some 0, status := "assigned" }

/-- The same delivery with status `'pending'`. -/
def dPendingTwin : ConsolidationDelivery :=
  { dAssigned with status := "pending" }

/-- A vehicle with a valid position, capacity 10 and no current load. -/
def v0 : ConsolidationVehicle :=
  { id := "v1", capacity := 10, current_load := 0, status := some "active",
    lat := some 0, lng := some 0 }

/-- A second pending delivery of weight 8 (spec scenario: weights 4 and 8 on
a capacity-10 vehicle never share a bundle). -/
def dHeavy : ConsolidationDelivery :=
  { id := "d2", weight := 8, from_lat := some 0, from_lng := some 0,
    to_lat := some 0, to_lng := some 0, status := "pending" }

/-- Forgetting a vehicle's status field; two vehicle lists that differ only
in statuses have equal images under this map. -/
def eraseStatus (v : ConsolidationVehicle) : ConsolidationVehicle :=
  { v with status := none }

/-- The fixture vehicle `v0` with a status marking it inactive. -/
def v0Inactive : ConsolidationVehicle :=
  { id := "v1", capacity := 10, current_load := 0, status := some "inactive",
    lat := some 0, lng := some 0 }

/-- The default scoring-weight profile, used as a concrete fixture. -/
def w0 : ScoringWeights :=
  { utilization := 4/10, savings := 3/10, costEfficiency := 1/10,
    deviationPenalty := 15/100, overloadRisk := 5/100 }

/-- An all-zero evaluation record, used as a concrete fixture. -/
def evZero : EvalResult :=
  { score := 0, savingsKm := 0, savingsFrac := 0, utilization := 0,
    baselineDistance := 0, routeDistanceKm := 0, durationMin := 0,
    routeCoordinates := [] }

/-- The number of edges whose origin has not been visited yet: the search can
still push at most this many successor states. -/
def aStarPotential (edges : List Edge) (visited : List String) : ℕ :=
  (edges.filter (fun e => decide (e.from_node ∉ visited))).length

/-- Decreasing measure of the search loop: queue length plus potential. -/
def aStarMeasure (edges : List Edge) (q : List (NodeState × ℚ))
    (visited : List String) : ℕ :=
  q.length + aStarPotential edges visited

/-- Looking up a node after a single `pushEdge` returns the old bucket plus
the new edge exactly when the edge starts at the looked-up node. -/
theorem getEdges_pushEdge (g : GraphA) (e : Edge) (n : String) :
    getEdges (pushEdge g e) n =
      getEdges g n ++ (if e.from_node = n then [e] else []) := by
  induction g with
  | nil =>
      by_cases h : e.from_node = n <;> simp [pushEdge, getEdges, h]
  | cons kv rest ih =>
      obtain ⟨k, es⟩ := kv
      simp only [pushEdge]
      by_cases hk : k = e.from_node
      · rw [if_pos hk]
        by_cases hn : k = n
        · have hen : e.from_node = n := by rw [← hk]; exact hn
          simp [getEdges, hn, hen]
        · have hen : ¬ e.from_node = n := by rw [← hk]; exact hn
          simp [getEdges, hn, hen]
      · rw [if_neg hk]
        by_cases hn : k = n
        · have hen : ¬ e.from_node = n := fun hc => hk (hn.trans hc.symm)
          simp [getEdges, hn, hen]
        · simp [getEdges, hn, ih]

/-- The bucket of a built graph is exactly the input edges leaving the node,
in input order. -/
theorem getEdges_buildGraph (edges : List Edge) (n : String) :
    getEdges (buildGraph edges) n = edges.filter (fun e => e.from_node = n) := by
  suffices h : ∀ (acc : GraphA),
      getEdges (edges.foldl pushEdge acc) n =
        getEdges acc n ++ edges.filter (fun e => e.from_node = n) by
    simpa [buildGraph, getEdges] using h []
  induction edges with
  | nil => intro acc; simp
  | cons e rest ih =>
      intro acc
      by_cases he : e.from_node = n
      · simp [List.foldl_cons, ih, getEdges_pushEdge, he, List.filter_cons]
      · simp [List.foldl_cons, ih, getEdges_pushEdge, he, List.filter_cons]

/-- Membership in the queue after an ordered insertion. -/
theorem mem_enqueuePQ {q : List (NodeState × ℚ)} {x : NodeState × ℚ}
    (y : NodeState) (p : ℚ) (hx : x ∈ enqueuePQ q y p) :
    x = (y, p) ∨ x ∈ q := by
  induction q with
  | nil => simpa [enqueuePQ] using hx
  | cons hd tl ih =>
      obtain ⟨z, pz⟩ := hd
      simp only [enqueuePQ] at hx
      split at hx
      · rcases List.mem_cons.mp hx with h | h
        · exact Or.inr (List.mem_cons.mpr (Or.inl h))
        · rcases ih h with h1 | h1
          · exact Or.inl h1
          · exact Or.inr (List.mem_cons.mpr (Or.inr h1))
      · rcases List.mem_cons.mp hx with h | h
        · exact Or.inl h
        · exact Or.inr h

/-- Membership after one expansion step: either an element of the original
queue, or a successor state built from the current state along a neighbor
edge whose target is unvisited. -/
theorem mem_pushNeighbors (hv : ℚ → ℚ → ℚ → ℚ → ℚ) (context : RouteContext)
    (dla dlo : ℚ) (cur : NodeState) (visited : List String)
    {x : NodeState × ℚ} :
    ∀ (neighbors : List Edge) (q : List (NodeState × ℚ)),
      x ∈ pushNeighbors hv context dla dlo cur visited q neighbors →
      x ∈ q ∨ ∃ e ∈ neighbors, e.to_node ∉ visited ∧
        x.1 = { node := e.to_node, cost := cur.cost + calculateEdgeCost e context,
                path := cur.path ++ [e], lat := e.to_lat, lng := e.to_lng } := by
  intro neighbors
  induction neighbors with
  | nil => intro q hx; exact Or.inl hx
  | cons e rest ih =>
      intro q hx
      simp only [pushNeighbors, List.foldl_cons] at hx
      by_cases hvst : e.to_node ∈ visited
      · simp only [if_pos hvst] at hx
        rcases ih q hx with h | ⟨e1, he1, hnv, hx1⟩
        · exact Or.inl h
        · exact Or.inr ⟨e1, List.mem_cons.mpr (Or.inr he1), hnv, hx1⟩
      · simp only [if_neg hvst] at hx
        rcases ih _ hx with h | ⟨e1, he1, hnv, hx1⟩
        · rcases mem_enqueuePQ _ _ h with h1 | h1
          · exact Or.inr ⟨e, List.mem_cons.mpr (Or.inl rfl), hvst, by rw [h1]⟩
          · exact Or.inl h1
        · exact Or.inr ⟨e1, List.mem_cons.mpr (Or.inr he1), hnv, hx1⟩

/-- Extending a chain by one edge leaving its endpoint. -/
theorem isChainB_append {p : List Edge} {mid : String} (e : Edge)
    (start : String) (hp : isChainB start mid p = true) (he : e.from_node = mid) :
    isChainB start e.to_node (p ++ [e]) = true := by
  induction p generalizing start with
  | nil =>
      simp only [isChainB, decide_eq_true_eq] at hp
      subst hp
      simp [isChainB, he]
  | cons e1 rest ih =>
      simp only [isChainB, Bool.and_eq_true, decide_eq_true_eq] at hp
      simp only [List.cons_append, isChainB, Bool.and_eq_true, decide_eq_true_eq]
      exact ⟨hp.1, ih _ hp.2⟩

/-- Every state the search loop can return satisfies the chain invariant. -/
theorem aStarLoop_chain (hv : ℚ → ℚ → ℚ → ℚ → ℚ) (edges : List Edge)
    (start goal : String) (context : RouteContext) (dla dlo : ℚ) :
    ∀ (fuel : ℕ) (q : List (NodeState × ℚ)) (visited : List String)
      (p : List Edge),
      (∀ x ∈ q, isChainB start (x.1).node (x.1).path = true) →
      aStarLoop hv (buildGraph edges) goal context dla dlo fuel q visited = some p →
      isChainB start goal p = true := by
  intro fuel
  induction fuel with
  | zero => intro q visited p _ hrun; simp [aStarLoop] at hrun
  | succ fuel ih =>
      intro q visited p hq hrun
      match q with
      | [] => simp [aStarLoop] at hrun
      | (cur, pr) :: rest =>
          simp only [aStarLoop] at hrun
          by_cases hgoal : cur.node = goal
          · rw [if_pos hgoal] at hrun
            have hcur := hq (cur, pr) (List.mem_cons.mpr (Or.inl rfl))
            obtain rfl : cur.path = p := by simpa using hrun
            rw [← hgoal]
            exact hcur
          · rw [if_neg hgoal] at hrun
            by_cases hvst : cur.node ∈ visited
            · rw [if_pos hvst] at hrun
              exact ih rest visited p
                (fun x hx => hq x (List.mem_cons.mpr (Or.inr hx))) hrun
            · rw [if_neg hvst] at hrun
              refine ih _ _ p ?_ hrun
              intro x hx
              rcases mem_pushNeighbors hv context dla dlo cur
                (cur.node :: visited) _ _ hx with h | ⟨e, he, _, hx1⟩
              · exact hq x (List.mem_cons.mpr (Or.inr h))
              · rw [getEdges_buildGraph] at he
                have hef : e.from_node = cur.node :=
                  of_decide_eq_true (List.mem_filter.mp he).2
                have hcur := hq (cur, pr) (List.mem_cons.mpr (Or.inl rfl))
                rw [hx1]
                exact isChainB_append e start hcur hef

/-- C4 (amended): whenever `runAStar` returns a path on a graph built from an
edge list, the path is a contiguous chain of edges from `start` to `goal`
(first edge leaves `start`, consecutive edges are linked, last edge enters
`goal`); it is non-empty whenever `start ≠ goal`.  The original claim's
unconditional non-emptiness fails in the degenerate case `start = goal`. -/
theorem runAStar_path_chain (hv : ℚ → ℚ → ℚ → ℚ → ℚ) (edges : List Edge)
    (start goal : String) (context : RouteContext) (dla dlo : ℚ)
    (p : List Edge)
    (h : runAStar hv (buildGraph edges) start goal context dla dlo = some p) :
    isChainB start goal p = true ∧ (start ≠ goal → p ≠ []) := by
  have hchain : isChainB start goal p = true := by
    unfold runAStar at h
    match hge : getEdges (buildGraph edges) start with
    | [] => rw [hge] at h; exact absurd h (by simp)
    | e0 :: tl =>
        rw [hge] at h
        refine aStarLoop_chain hv edges start goal context dla dlo _ _ _ p ?_ h
        intro x hx
        rw [List.mem_singleton] at hx
        subst hx
        simp [isChainB]
  refine ⟨hchain, ?_⟩
  intro hne hp
  subst hp
  simp only [isChainB, decide_eq_true_eq] at hchain
  exact hne hchain

/-- C4 counterexample: with the single edge A→B and `start = goal = "A"`, the
search returns the empty path, so the original claim's "non-empty list of
edges" is violated at this input. -/
theorem runAStar_empty_path_counterexample :
    ¬ (∀ p : List Edge,
        runAStar hv0 (buildGraph [straightEdgeAB]) "A" "A" fullBatteryFastest 0 0 =
          some p → p ≠ []) := by
  intro h
  exact h [] (by with_unfolding_all rfl) rfl

/-- Witness for the amended C4 at a concrete input: the search from A to B on
the single-edge graph returns the one-edge chain. -/
theorem runAStar_path_chain_witness :
    isChainB "A" "B" [straightEdgeAB] = true ∧
      ("A" ≠ "B" → ([straightEdgeAB] : List Edge) ≠ []) :=
  runAStar_path_chain hv0 [straightEdgeAB] "A" "B" fullBatteryFastest 2 2
    [straightEdgeAB] (by with_unfolding_all rfl)

/-- Every node reachable from `start` is `start` itself or the target of some
edge of the list. -/
theorem reachable_cases {edges : List Edge} {start n : String}
    (h : Reachable edges start n) :
    n = start ∨ ∃ e ∈ edges, e.to_node = n := by
  cases h with
  | refl => exact Or.inl rfl
  | step _ he _ => exact Or.inr ⟨_, he, rfl⟩

/-- If the goal is unreachable, the search loop can never return a path: every
queue state stays within the reachable set. -/
theorem aStarLoop_unreachable (hv : ℚ → ℚ → ℚ → ℚ → ℚ) (edges : List Edge)
    (start goal : String) (context : RouteContext) (dla dlo : ℚ)
    (hun : ¬ Reachable edges start goal) :
    ∀ (fuel : ℕ) (q : List (NodeState × ℚ)) (visited : List String),
      (∀ x ∈ q, Reachable edges start (x.1).node) →
      aStarLoop hv (buildGraph edges) goal context dla dlo fuel q visited = none := by
  intro fuel
  induction fuel with
  | zero => intro q visited _; simp [aStarLoop]
  | succ fuel ih =>
      intro q visited hq
      match q with
      | [] => simp [aStarLoop]
      | (cur, pr) :: rest =>
          simp only [aStarLoop]
          have hcur := hq (cur, pr) (List.mem_cons.mpr (Or.inl rfl))
          have hgoal : ¬ cur.node = goal := fun hc => hun (hc ▸ hcur)
          rw [if_neg hgoal]
          by_cases hvst : cur.node ∈ visited
          · rw [if_pos hvst]
            exact ih rest visited (fun x hx => hq x (List.mem_cons.mpr (Or.inr hx)))
          · rw [if_neg hvst]
            refine ih _ _ ?_
            intro x hx
            rcases mem_pushNeighbors hv context dla dlo cur
              (cur.node :: visited) _ _ hx with h | ⟨e, he, _, hx1⟩
            · exact hq x (List.mem_cons.mpr (Or.inr h))
            · rw [getEdges_buildGraph] at he
              have hmem := (List.mem_filter.mp he).1
              have hef : e.from_node = cur.node :=
                of_decide_eq_true (List.mem_filter.mp he).2
              rw [hx1]
              exact Reachable.step hcur hmem hef

/-- `runAStar` returns the explicit no-route outcome whenever the goal is
unreachable from the start node. -/
theorem runAStar_unreachable (hv : ℚ → ℚ → ℚ → ℚ → ℚ) (edges : List Edge)
    (start goal : String) (context : RouteContext) (dla dlo : ℚ)
    (hun : ¬ Reachable edges start goal) :
    runAStar hv (buildGraph edges) start goal context dla dlo = none := by
  unfold runAStar
  match hge : getEdges (buildGraph edges) start with
  | [] => rfl
  | e0 :: tl =>
      refine aStarLoop_unreachable hv edges start goal context dla dlo hun _ _ _ ?_
      intro x hx
      rw [List.mem_singleton] at hx
      subst hx
      exact Reachable.refl

/-- C5 (amended): when the goal is unreachable from the start, the planner
never throws; it returns the overall `none` when no edge of the list even
enters the goal node (so no destination coordinates exist), and otherwise a
record with an explicit per-mode `none` for fastest, greenest and safest.
The original claim promised the per-mode record in all unreachable cases. -/
theorem runSmartRouteRealtime_unreachable (hv : ℚ → ℚ → ℚ → ℚ → ℚ)
    (edges : List Edge) (start goal : String) (battery cityAQI : ℚ)
    (hun : ¬ Reachable edges start goal) :
    runSmartRouteRealtime hv edges start goal battery cityAQI = none ∨
    runSmartRouteRealtime hv edges start goal battery cityAQI =
      some { fastest := none, greenest := none, safest := none } := by
  have hall : ∀ (m : RouteMode) (la lo : ℚ),
      runAStar hv (buildGraph edges) start goal
        { battery := battery, cityAQI := cityAQI, mode := m } la lo = none :=
    fun m la lo => runAStar_unreachable hv edges start goal
      { battery := battery, cityAQI := cityAQI, mode := m } la lo hun
  unfold runSmartRouteRealtime
  cases hfind : List.find? (fun e => decide (e.to_node = goal)) edges with
  | none => exact Or.inl (by simp [hfind])
  | some de => exact Or.inr (by simp [hfind, hall])

/-- Node "C" is not reachable from "A" along the single edge A→B. -/
theorem not_reachable_AC : ¬ Reachable [straightEdgeAB] "A" "C" := by
  intro h
  rcases reachable_cases h with h1 | ⟨e, he, h2⟩
  · exact absurd h1 (by decide)
  · rw [List.mem_singleton] at he
    subst he
    exact absurd h2 (by decide)

/-- C5 counterexample: with the single edge A→B and unreachable goal "C", the
planner returns the overall `none` (no destination edge exists), not the
per-mode record of `none`s promised by the original claim. -/
theorem runSmartRouteRealtime_none_counterexample :
    (¬ Reachable [straightEdgeAB] "A" "C") ∧
    runSmartRouteRealtime hv0 [straightEdgeAB] "A" "C" 100 0 = none ∧
    ∀ o : PlanOutcome,
      runSmartRouteRealtime hv0 [straightEdgeAB] "A" "C" 100 0 ≠ some o := by
  refine ⟨not_reachable_AC, by with_unfolding_all rfl, ?_⟩
  intro o ho
  rw [show runSmartRouteRealtime hv0 [straightEdgeAB] "A" "C" 100 0 = none from
    by with_unfolding_all rfl] at ho
  exact Option.noConfusion ho

/-- Witness for the amended C5 at the concrete unreachable input. -/
theorem runSmartRouteRealtime_unreachable_witness :
    (¬ Reachable [straightEdgeAB] "A" "C") ∧
    (runSmartRouteRealtime hv0 [straightEdgeAB] "A" "C" 100 0 = none ∨
      runSmartRouteRealtime hv0 [straightEdgeAB] "A" "C" 100 0 =
        some { fastest := none, greenest := none, safest := none }) :=
  ⟨not_reachable_AC,
    runSmartRouteRealtime_unreachable hv0 [straightEdgeAB] "A" "C" 100 0
      not_reachable_AC⟩

/-- C1: evaluation at the failing input.  A delivery with status
`'assigned'` and four finite coordinates satisfies the spec's eligibility
predicate but is rejected by the filter of `matchLoads` (which accepts
status `'pending'` only), so the whole consolidation run returns the all-zero
result — while the identical delivery with status `'pending'` produces a
suggestion in the same setting. -/
theorem matchLoads_drops_assigned_deliveries :
    specEligibleDelivery dAssigned = true ∧
    isEligibleDelivery dAssigned = false ∧
    matchLoads P0 [v0] [dAssigned] =
      { clusters := [], suggestions := [], tripsAvoided := 0, fuelSaved := 0,
        costSaved := 0 } ∧
    (matchLoads P0 [v0] [dPendingTwin]).suggestions.length = 1 := by
  refine ⟨by decide, by decide, by with_unfolding_all rfl, by with_unfolding_all rfl⟩

/-- Ordered insertion grows the queue by exactly one element. -/
theorem length_enqueuePQ (q : List (NodeState × ℚ)) (x : NodeState) (p : ℚ) :
    (enqueuePQ q x p).length = q.length + 1 := by
  induction q with
  | nil => rfl
  | cons hd tl ih =>
      obtain ⟨y, py⟩ := hd
      simp only [enqueuePQ]
      split
      · simp [ih]
      · simp

/-- One expansion step pushes at most one state per neighbor edge. -/
theorem length_pushNeighbors (hv : ℚ → ℚ → ℚ → ℚ → ℚ) (context : RouteContext)
    (dla dlo : ℚ) (cur : NodeState) (visited : List String) :
    ∀ (neighbors : List Edge) (q : List (NodeState × ℚ)),
      (pushNeighbors hv context dla dlo cur visited q neighbors).length ≤
        q.length + neighbors.length := by
  intro neighbors
  induction neighbors with
  | nil => intro q; simp [pushNeighbors]
  | cons e rest ih =>
      intro q
      simp only [pushNeighbors, List.foldl_cons]
      by_cases hvst : e.to_node ∈ visited
      · rw [if_pos hvst]
        calc (pushNeighbors hv context dla dlo cur visited q rest).length
            ≤ q.length + rest.length := ih q
          _ ≤ q.length + (e :: rest).length := by simp
      · rw [if_neg hvst]
        calc (pushNeighbors hv context dla dlo cur visited _ rest).length
            ≤ (enqueuePQ q _ _).length + rest.length := ih _
          _ = q.length + (e :: rest).length := by
              rw [length_enqueuePQ]; simp only [List.length_cons]; omega

/-- Visiting a fresh node removes exactly its outgoing edges from the
potential. -/
theorem aStarPotential_cons (edges : List Edge) (u : String)
    (visited : List String) (hu : u ∉ visited) :
    aStarPotential edges visited =
      aStarPotential edges (u :: visited) +
        (edges.filter (fun e => decide (e.from_node = u))).length := by
  have split : ∀ (p q r : Edge → Bool),
      (∀ x, p x = true ↔ (q x = true ∨ r x = true)) →
      (∀ x, ¬ (q x = true ∧ r x = true)) →
      ∀ l : List Edge,
        (l.filter p).length = (l.filter q).length + (l.filter r).length := by
    intro p q r hpqr hdisj l
    induction l with
    | nil => rfl
    | cons e rest ih =>
        have hp := hpqr e
        have hd := hdisj e
        simp only [List.filter_cons]
        cases hq : q e <;> cases hr : r e <;> cases hpe : p e <;>
          simp_all [List.length_cons] <;> omega
  simp only [aStarPotential]
  refine split _ _ _ ?_ ?_ edges
  · intro x
    constructor
    · intro hx
      rw [decide_eq_true_eq] at hx
      by_cases hxu : x.from_node = u
      · exact Or.inr (by rw [decide_eq_true_eq]; exact hxu)
      · refine Or.inl ?_
        rw [decide_eq_true_eq]
        intro hmem
        rcases List.mem_cons.mp hmem with h | h
        · exact hxu h
        · exact hx h
    · intro hx
      rw [decide_eq_true_eq]
      rcases hx with h | h
      · rw [decide_eq_true_eq] at h
        intro hmem
        exact h (List.mem_cons.mpr (Or.inr hmem))
      · rw [decide_eq_true_eq] at h
        intro hmem
        exact hu (h ▸ hmem)
  · intro x ⟨h1, h2⟩
    rw [decide_eq_true_eq] at h1 h2
    exact h1 (h2 ▸ List.mem_cons.mpr (Or.inl rfl))

/-- An empty queue always yields the no-route outcome, whatever the fuel. -/
theorem aStarLoop_nil (hv : ℚ → ℚ → ℚ → ℚ → ℚ) (g : GraphA) (goal : String)
    (context : RouteContext) (dla dlo : ℚ) (fuel : ℕ) (visited : List String) :
    aStarLoop hv g goal context dla dlo fuel [] visited = none := by
  cases fuel <;> simp [aStarLoop]

/-- The search loop stabilises: any two fuels at least the measure give the
same outcome, because every iteration strictly decreases the measure (the
visited set only grows and each node is expanded at most once). -/
theorem aStarLoop_fuel_irrelevant (hv : ℚ → ℚ → ℚ → ℚ → ℚ) (edges : List Edge)
    (goal : String) (context : RouteContext) (dla dlo : ℚ) :
    ∀ (f1 f2 : ℕ) (q : List (NodeState × ℚ)) (visited : List String),
      aStarMeasure edges q visited ≤ f1 → aStarMeasure edges q visited ≤ f2 →
      aStarLoop hv (buildGraph edges) goal context dla dlo f1 q visited =
        aStarLoop hv (buildGraph edges) goal context dla dlo f2 q visited := by
  intro f1
  induction f1 with
  | zero =>
      intro f2 q visited h1 _
      have hq : q = [] := by
        cases q with
        | nil => rfl
        | cons hd tl => simp [aStarMeasure] at h1
      subst hq
      rw [aStarLoop_nil, aStarLoop_nil]
  | succ f1 ih =>
      intro f2 q visited h1 h2
      match q with
      | [] => rw [aStarLoop_nil, aStarLoop_nil]
      | (cur, pr) :: rest =>
          match f2 with
          | 0 => simp [aStarMeasure] at h2
          | f2 + 1 =>
              simp only [aStarLoop]
              by_cases hgoal : cur.node = goal
              · rw [if_pos hgoal, if_pos hgoal]
              · rw [if_neg hgoal, if_neg hgoal]
                by_cases hvst : cur.node ∈ visited
                · rw [if_pos hvst, if_pos hvst]
                  refine ih f2 rest visited ?_ ?_ <;>
                    simp only [aStarMeasure, List.length_cons] at h1 h2 ⊢ <;> omega
                · rw [if_neg hvst, if_neg hvst]
                  have hm : aStarMeasure edges
                      (pushNeighbors hv context dla dlo cur (cur.node :: visited)
                        rest (getEdges (buildGraph edges) cur.node))
                      (cur.node :: visited) + 1 ≤
                      aStarMeasure edges ((cur, pr) :: rest) visited := by
                    have hlen := length_pushNeighbors hv context dla dlo cur
                      (cur.node :: visited) (getEdges (buildGraph edges) cur.node) rest
                    have hpot := aStarPotential_cons edges cur.node visited hvst
                    rw [getEdges_buildGraph] at hlen
                    simp only [aStarMeasure, List.length_cons]
                    rw [getEdges_buildGraph]
                    omega
                  refine ih f2 _ _ ?_ ?_ <;> omega

/-- The total size of a graph grows by one per pushed edge. -/
theorem graphSizeA_pushEdge (g : GraphA) (e : Edge) :
    graphSizeA (pushEdge g e) = graphSizeA g + 1 := by
  induction g with
  | nil => simp [pushEdge, graphSizeA]
  | cons kv rest ih =>
      obtain ⟨k, es⟩ := kv
      simp only [pushEdge]
      split
      · simp [graphSizeA]; omega
      · simp only [graphSizeA, List.map_cons, List.sum_cons] at ih ⊢
        omega

/-- A built graph stores exactly the input edges. -/
theorem graphSizeA_buildGraph (edges : List Edge) :
    graphSizeA (buildGraph edges) = edges.length := by
  suffices h : ∀ acc : GraphA,
      graphSizeA (edges.foldl pushEdge acc) = graphSizeA acc + edges.length by
    simpa [buildGraph, graphSizeA] using h []
  induction edges with
  | nil => intro acc; simp
  | cons e rest ih =>
      intro acc
      simp [List.foldl_cons, ih, graphSizeA_pushEdge]
      omega

/-- With nobody visited, the potential is the whole edge list. -/
theorem aStarPotential_nil (edges : List Edge) :
    aStarPotential edges [] = edges.length := by
  simp [aStarPotential]

/-- The bundle-growth loop stabilises: any two fuels covering the remaining
room up to `MAX_BUNDLE_SIZE = 4` give the same result, because every
continuing iteration grows the bundle by one delivery. -/
theorem growBundle_fuel_irrelevant (P : GeoPrims)
    (vehicle : ConsolidationVehicle) (vehiclePoint : LatLng)
    (weights : ScoringWeights) (trafficFactor : ℚ)
    (savingsMatrix : SavingsMatrix) (availableCapacity : ℚ)
    (candidates : List ConsolidationDelivery) :
    ∀ (f1 f2 : ℕ) (bundle : List ConsolidationDelivery) (ev : EvalResult),
      4 ≤ bundle.length + f1 → 4 ≤ bundle.length + f2 →
      growBundle P vehicle vehiclePoint weights trafficFactor savingsMatrix
          availableCapacity candidates f1 bundle ev =
        growBundle P vehicle vehiclePoint weights trafficFactor savingsMatrix
          availableCapacity candidates f2 bundle ev := by
  intro f1
  induction f1 with
  | zero =>
      intro f2 bundle ev h1 h2
      have hlen : ¬ bundle.length < 4 := by omega
      cases f2 with
      | zero => rfl
      | succ f2 => simp [growBundle, hlen]
  | succ f1 ih =>
      intro f2 bundle ev h1 h2
      cases f2 with
      | zero =>
          have hlen : ¬ bundle.length < 4 := by omega
          simp [growBundle, hlen]
      | succ f2 =>
          simp only [growBundle]
          by_cases hlen : bundle.length < 4
          · rw [if_pos hlen, if_pos hlen]
            cases hfind : findBestNext P vehicle vehiclePoint weights
              trafficFactor savingsMatrix availableCapacity candidates bundle ev with
            | mk o evn =>
                cases o with
                | none => rfl
                | some c =>
                    refine ih f2 (bundle ++ [c]) evn ?_ ?_ <;>
                      simp only [List.length_append, List.length_cons,
                        List.length_nil] <;> omega
          · rw [if_neg hlen, if_neg hlen]

/-- The bundle size never exceeds `MAX_BUNDLE_SIZE = 4`. -/
theorem growBundle_length_le (P : GeoPrims) (vehicle : ConsolidationVehicle)
    (vehiclePoint : LatLng) (weights : ScoringWeights) (trafficFactor : ℚ)
    (savingsMatrix : SavingsMatrix) (availableCapacity : ℚ)
    (candidates : List ConsolidationDelivery) :
    ∀ (fuel : ℕ) (bundle : List ConsolidationDelivery) (ev : EvalResult),
      bundle.length ≤ 4 →
      (growBundle P vehicle vehiclePoint weights trafficFactor savingsMatrix
        availableCapacity candidates fuel bundle ev).1.length ≤ 4 := by
  intro fuel
  induction fuel with
  | zero => intro bundle ev h; exact h
  | succ fuel ih =>
      intro bundle ev h
      simp only [growBundle]
      by_cases hlen : bundle.length < 4
      · rw [if_pos hlen]
        cases hfind : findBestNext P vehicle vehiclePoint weights trafficFactor
          savingsMatrix availableCapacity candidates bundle ev with
        | mk o evn =>
            cases o with
            | none => exact h
            | some c =>
                refine ih (bundle ++ [c]) evn ?_
                simp only [List.length_append, List.length_cons, List.length_nil]
                omega
      · rw [if_neg hlen]
        exact h

/-- C9: the engine terminates structurally.  (1) The A* loop stabilises at
any fuel at least its measure (queue length plus the number of edges leaving
unvisited nodes), since every iteration strictly decreases that measure — the
visited set only grows and each node is expanded at most once; (2) the fuel
`graphSize + 1` used by `runAStar` is such a bound for the initial
configuration, so the wrapper computes the loop's limit; (3) the bundle
search stabilises at any fuel covering the remaining room up to the bundle
cap of 4; and (4) bundles never exceed 4 deliveries. -/
theorem engine_structural_termination :
    (∀ (hv : ℚ → ℚ → ℚ → ℚ → ℚ) (edges : List Edge) (goal : String)
        (context : RouteContext) (dla dlo : ℚ) (f1 f2 : ℕ)
        (q : List (NodeState × ℚ)) (visited : List String),
      aStarMeasure edges q visited ≤ f1 → aStarMeasure edges q visited ≤ f2 →
      aStarLoop hv (buildGraph edges) goal context dla dlo f1 q visited =
        aStarLoop hv (buildGraph edges) goal context dla dlo f2 q visited) ∧
    (∀ (hv : ℚ → ℚ → ℚ → ℚ → ℚ) (edges : List Edge) (start goal : String)
        (context : RouteContext) (dla dlo : ℚ) (fuel : ℕ) (e0 : Edge)
        (tl : List Edge),
      getEdges (buildGraph edges) start = e0 :: tl →
      edges.length + 1 ≤ fuel →
      aStarLoop hv (buildGraph edges) goal context dla dlo fuel
          [({ node := start, cost := 0, path := [], lat := e0.from_lat,
              lng := e0.from_lng }, 0)] [] =
        runAStar hv (buildGraph edges) start goal context dla dlo) ∧
    (∀ (P : GeoPrims) (vehicle : ConsolidationVehicle) (vehiclePoint : LatLng)
        (weights : ScoringWeights) (trafficFactor : ℚ)
        (savingsMatrix : SavingsMatrix) (availableCapacity : ℚ)
        (candidates : List ConsolidationDelivery) (f1 f2 : ℕ)
        (bundle : List ConsolidationDelivery) (ev : EvalResult),
      4 ≤ bundle.length + f1 → 4 ≤ bundle.length + f2 →
      growBundle P vehicle vehiclePoint weights trafficFactor savingsMatrix
          availableCapacity candidates f1 bundle ev =
        growBundle P vehicle vehiclePoint weights trafficFactor savingsMatrix
          availableCapacity candidates f2 bundle ev) ∧
    (∀ (P : GeoPrims) (vehicle : ConsolidationVehicle) (vehiclePoint : LatLng)
        (weights : ScoringWeights) (trafficFactor : ℚ)
        (savingsMatrix : SavingsMatrix) (availableCapacity : ℚ)
        (candidates : List ConsolidationDelivery) (fuel : ℕ)
        (bundle : List ConsolidationDelivery) (ev : EvalResult),
      bundle.length ≤ 4 →
      (growBundle P vehicle vehiclePoint weights trafficFactor savingsMatrix
        availableCapacity candidates fuel bundle ev).1.length ≤ 4) := by
  refine ⟨?_, ?_, ?_, ?_⟩
  · intro hv edges goal context dla dlo f1 f2 q visited h1 h2
    exact aStarLoop_fuel_irrelevant hv edges goal context dla dlo f1 f2 q
      visited h1 h2
  · intro hv edges start goal context dla dlo fuel e0 tl hge hfuel
    unfold runAStar
    rw [hge]
    have hm : aStarMeasure edges
        [({ node := start, cost := 0, path := [], lat := e0.from_lat,
            lng := e0.from_lng }, (0:ℚ))] [] = edges.length + 1 := by
      simp [aStarMeasure, aStarPotential_nil]
      omega
    refine aStarLoop_fuel_irrelevant hv edges goal context dla dlo fuel _ _ [] ?_ ?_
    · rw [hm]; exact hfuel
    · rw [hm, graphSizeA_buildGraph]
  · intro P vehicle vehiclePoint weights trafficFactor savingsMatrix
      availableCapacity candidates f1 f2 bundle ev h1 h2
    exact growBundle_fuel_irrelevant P vehicle vehiclePoint weights
      trafficFactor savingsMatrix availableCapacity candidates f1 f2 bundle ev h1 h2
  · intro P vehicle vehiclePoint weights trafficFactor savingsMatrix
      availableCapacity candidates fuel bundle ev h
    exact growBundle_length_le P vehicle vehiclePoint weights trafficFactor
      savingsMatrix availableCapacity candidates fuel bundle ev h

/-- Witness for C9: each part of the termination theorem applied at a
concrete input. -/
theorem engine_structural_termination_witness :
    (aStarMeasure [straightEdgeAB] [] [] ≤ 2 ∧
      aStarMeasure [straightEdgeAB] [] [] ≤ 5 ∧
      aStarLoop hv0 (buildGraph [straightEdgeAB]) "B" fullBatteryFastest 2 2 2 [] [] =
        aStarLoop hv0 (buildGraph [straightEdgeAB]) "B" fullBatteryFastest 2 2 5 [] []) ∧
    (getEdges (buildGraph [straightEdgeAB]) "A" = [straightEdgeAB] ∧
      aStarLoop hv0 (buildGraph [straightEdgeAB]) "B" fullBatteryFastest 2 2 9
          [({ node := "A", cost := 0, path := [], lat := straightEdgeAB.from_lat,
              lng := straightEdgeAB.from_lng }, 0)] [] =
        runAStar hv0 (buildGraph [straightEdgeAB]) "A" "B" fullBatteryFastest 2 2) ∧
    (4 ≤ ([dPendingTwin] : List ConsolidationDelivery).length + 3 ∧
      growBundle P0 v0 { lat := 0, lng := 0 } w0 1 [] 10 [] 3 [dPendingTwin] evZero =
        growBundle P0 v0 { lat := 0, lng := 0 } w0 1 [] 10 [] 6 [dPendingTwin] evZero) ∧
    (([dPendingTwin] : List ConsolidationDelivery).length ≤ 4 ∧
      (growBundle P0 v0 { lat := 0, lng := 0 } w0 1 [] 10 [] 9
        [dPendingTwin] evZero).1.length ≤ 4) := by
  have hm2 : aStarMeasure [straightEdgeAB] [] [] ≤ 2 := by decide
  have hm5 : aStarMeasure [straightEdgeAB] [] [] ≤ 5 := by decide
  have hge : getEdges (buildGraph [straightEdgeAB]) "A" = [straightEdgeAB] := by
    with_unfolding_all rfl
  refine ⟨⟨hm2, hm5, ?_⟩, ⟨hge, ?_⟩, ⟨by decide, ?_⟩, ⟨by decide, ?_⟩⟩
  · exact engine_structural_termination.1 hv0 [straightEdgeAB] "B"
      fullBatteryFastest 2 2 2 5 [] [] hm2 hm5
  · exact engine_structural_termination.2.1 hv0 [straightEdgeAB] "A" "B"
      fullBatteryFastest 2 2 9 straightEdgeAB [] hge (by decide)
  · exact engine_structural_termination.2.2.1 P0 v0 { lat := 0, lng := 0 } w0 1
      [] 10 [] 3 6 [dPendingTwin] evZero (by decide) (by decide)
  · exact engine_structural_termination.2.2.2 P0 v0 { lat := 0, lng := 0 } w0 1
      [] 10 [] 9 [dPendingTwin] evZero (by decide)

/-- C8: on the scenario graph — restricted direct edge A→B of distance 10 and
an unrestricted alternative A→C→B of total distance 12, congestion and AQI
zero, battery 100, fastest mode — the search returns the two-edge
unrestricted path instead of the direct restricted edge.  The heuristic is
any haversine-like function: zero at coincident points and, at C, at most the
remaining edge distance (the scenario's "edge distances consistent with the
coordinates"). -/
theorem runAStar_avoids_restricted (hv : ℚ → ℚ → ℚ → ℚ → ℚ) (dAC dCB : ℚ)
    (hAC : 0 < dAC) (hCB : 0 < dCB) (hsum : dAC + dCB = 12)
    (hB : hv 2 2 2 2 = 0) (hC0 : 0 ≤ hv 1 1 2 2) (hCle : hv 1 1 2 2 ≤ dCB) :
    runAStar hv (buildGraph [restrictedAB, edgeAC dAC, edgeCB dCB]) "A" "B"
      fullBatteryFastest 2 2 = some [edgeAC dAC, edgeCB dCB] := by
  have hg : buildGraph [restrictedAB, edgeAC dAC, edgeCB dCB] =
      [("A", [restrictedAB, edgeAC dAC]), ("C", [edgeCB dCB])] := by
    simp [buildGraph, pushEdge, restrictedAB, edgeAC, edgeCB]
  unfold runAStar
  rw [hg]
  simp only [getEdges, graphSizeA]
  norm_num
  have sCA : ("C" : String) ≠ "A" := by decide
  have sBA : ("B" : String) ≠ "A" := by decide
  have sCB : ("C" : String) ≠ "B" := by decide
  have sBC : ("B" : String) ≠ "C" := by decide
  have sAB : ("A" : String) ≠ "B" := by decide
  simp only [aStarLoop, pushNeighbors, List.foldl_cons, List.foldl_nil, getEdges,
    enqueuePQ, calculateEdgeCost, restrictedAB, edgeAC, edgeCB, fullBatteryFastest, hB,
    sCA, sBA, sCB, sBC, sAB]
  simp [sCA, sBA, sCB, sBC, sAB, hB, List.mem_cons, List.mem_singleton]
  norm_num [enqueuePQ]
  rw [if_neg (show ¬ ((10020:ℚ) ≤ 2 * dAC + hv 1 1 2 2) by linarith)]
  simp only [aStarLoop, pushNeighbors, List.foldl_cons, List.foldl_nil, getEdges,
    enqueuePQ, calculateEdgeCost, fullBatteryFastest, hB, sCA, sBA, sCB, sBC, sAB]
  simp [sCA, sBA, sCB, sBC, sAB, hB, List.mem_cons, List.mem_singleton]
  norm_num
  simp only [enqueuePQ]
  rw [if_neg (show ¬ ((10020:ℚ) ≤ 2 * dAC + 2 * dCB) by linarith)]
  simp [aStarLoop]

/-- Witness for C8 with the zero heuristic and the detour split 6 + 6. -/
theorem runAStar_avoids_restricted_witness :
    (0 < (6:ℚ) ∧ (6:ℚ) + 6 = 12 ∧ hv0 2 2 2 2 = 0 ∧ hv0 1 1 2 2 ≤ 6) ∧
    runAStar hv0 (buildGraph [restrictedAB, edgeAC 6, edgeCB 6]) "A" "B"
      fullBatteryFastest 2 2 = some [edgeAC 6, edgeCB 6] :=
  ⟨⟨by norm_num, by norm_num, by norm_num [hv0], by norm_num [hv0]⟩,
    runAStar_avoids_restricted hv0 6 6 (by norm_num) (by norm_num) (by norm_num)
      (by norm_num [hv0]) (by norm_num [hv0]) (by norm_num [hv0])⟩

/-- Every suggestion accepted by the conflict-resolution pass avoids all the
delivery ids already assigned when the pass started. -/
theorem dedupe_avoids_assigned :
    ∀ (l : List ConsolidationSuggestion) (assignedIds : List String)
      (s : ConsolidationSuggestion), s ∈ dedupeSuggestions l assignedIds →
      ∀ i ∈ s.deliveryIds, i ∉ assignedIds := by
  intro l
  induction l with
  | nil => intro assignedIds s hs; simp [dedupeSuggestions] at hs
  | cons s0 rest ih =>
      intro assignedIds s hs i hi
      simp only [dedupeSuggestions] at hs
      by_cases hc : s0.deliveryIds.any (fun i => i ∈ assignedIds)
      · rw [if_pos hc] at hs
        exact ih assignedIds s hs i hi
      · rw [if_neg hc] at hs
        rcases List.mem_cons.mp hs with h | h
        · subst h
          intro hmem
          exact hc (List.any_eq_true.mpr ⟨i, hi, by simpa using hmem⟩)
        · intro hmem
          exact ih (assignedIds ++ s0.deliveryIds) s h i hi
            (List.mem_append.mpr (Or.inl hmem))

/-- The conflict-resolution pass returns pairwise delivery-disjoint
suggestions. -/
theorem dedupe_pairwise_disjoint :
    ∀ (l : List ConsolidationSuggestion) (assignedIds : List String),
      List.Pairwise (fun a b => ∀ i ∈ a.deliveryIds, i ∉ b.deliveryIds)
        (dedupeSuggestions l assignedIds) := by
  intro l
  induction l with
  | nil => intro assignedIds; simp [dedupeSuggestions]
  | cons s0 rest ih =>
      intro assignedIds
      simp only [dedupeSuggestions]
      by_cases hc : s0.deliveryIds.any (fun i => i ∈ assignedIds)
      · rw [if_pos hc]
        exact ih assignedIds
      · rw [if_neg hc]
        refine List.Pairwise.cons ?_ (ih _)
        intro b hb i hi hib
        have := dedupe_avoids_assigned rest (assignedIds ++ s0.deliveryIds) b hb
          i hib
        exact this (List.mem_append.mpr (Or.inr hi))

/-- C3: no delivery id appears in the `deliveryIds` of two different
suggestions of a single `ConsolidationResult`: the accepted suggestions are
pairwise delivery-disjoint, for every vehicle list and delivery list (and any
geometric primitives). -/
theorem matchLoads_suggestions_disjoint (P : GeoPrims)
    (vehicles : List ConsolidationVehicle)
    (deliveries : List ConsolidationDelivery) :
    List.Pairwise (fun a b => ∀ i ∈ a.deliveryIds, i ∉ b.deliveryIds)
      (matchLoads P vehicles deliveries).suggestions := by
  unfold matchLoads
  by_cases hc : ((deliveries.filter isEligibleDelivery).isEmpty || vehicles.isEmpty) = true
  · simp only [hc, if_true]
    exact List.Pairwise.nil
  · simp only [hc, if_false]
    exact dedupe_pairwise_disjoint _ []

/-- Appending one delivery adds its normalized weight to the bundle weight. -/
theorem bundleWeight_append (bundle : List ConsolidationDelivery)
    (c : ConsolidationDelivery) :
    bundleWeight (bundle ++ [c]) = bundleWeight bundle + normalizeWeight c.weight := by
  have key : ∀ (l : List ConsolidationDelivery) (a : ℚ),
      l.foldl (fun sum d => sum + normalizeWeight d.weight) a =
        a + l.foldl (fun sum d => sum + normalizeWeight d.weight) 0 := by
    intro l
    induction l with
    | nil => intro a; simp
    | cons d rest ih =>
        intro a
        simp only [List.foldl_cons]
        rw [ih (a + normalizeWeight d.weight), ih (0 + normalizeWeight d.weight)]
        ring
  simp only [bundleWeight, List.foldl_append, List.foldl_cons, List.foldl_nil]

/-- A nonnegative value passes `normalizeWeight` unchanged. -/
theorem normalizeWeight_of_nonneg {x : ℚ} (h : 0 ≤ x) : normalizeWeight x = x := by
  unfold normalizeWeight
  rcases lt_or_eq_of_le h with h1 | h1
  · rw [if_pos h1]
  · rw [← h1]
    norm_num

/-- `addDeliveryIfFits` only succeeds within the available capacity, and then
appends the candidate. -/
theorem addDeliveryIfFits_some {bundle : List ConsolidationDelivery}
    {candidate : ConsolidationDelivery} {availableCapacity : ℚ}
    {b2 : List ConsolidationDelivery}
    (h : addDeliveryIfFits bundle candidate availableCapacity = some b2) :
    b2 = bundle ++ [candidate] ∧ bundleWeight b2 ≤ availableCapacity := by
  unfold addDeliveryIfFits at h
  by_cases hc : bundleWeight bundle + normalizeWeight candidate.weight >
      availableCapacity
  · rw [if_pos hc] at h
    exact absurd h (by simp)
  · rw [if_neg hc] at h
    obtain rfl : bundle ++ [candidate] = b2 := by simpa using h
    refine ⟨rfl, ?_⟩
    rw [bundleWeight_append]
    linarith [not_lt.mp hc]

/-- Fold invariant for the candidate-selection pass: any chosen candidate
fits the capacity and comes from the folded list. -/
theorem foldl_findBestNextStep_spec (P : GeoPrims)
    (vehicle : ConsolidationVehicle) (vehiclePoint : LatLng)
    (weights : ScoringWeights) (trafficFactor : ℚ)
    (savingsMatrix : SavingsMatrix) (availableCapacity : ℚ)
    (bundle : List ConsolidationDelivery) (S : List ConsolidationDelivery) :
    ∀ (l : List ConsolidationDelivery)
      (acc : Option ConsolidationDelivery × EvalResult),
      (∀ c ev1, acc = (some c, ev1) →
        bundleWeight (bundle ++ [c]) ≤ availableCapacity ∧ c ∈ S) →
      (∀ x ∈ l, x ∈ S) →
      ∀ c ev1,
        l.foldl (findBestNextStep P vehicle vehiclePoint weights trafficFactor
          savingsMatrix availableCapacity bundle) acc = (some c, ev1) →
        bundleWeight (bundle ++ [c]) ≤ availableCapacity ∧ c ∈ S := by
  intro l
  induction l with
  | nil => intro acc hacc _ c ev1 h; exact hacc c ev1 h
  | cons x rest ih =>
      intro acc hacc hl c ev1 h
      simp only [List.foldl_cons] at h
      refine ih _ ?_ (fun y hy => hl y (List.mem_cons.mpr (Or.inr hy))) c ev1 h
      intro c1 ev2 hstep
      unfold findBestNextStep at hstep
      cases haf : addDeliveryIfFits bundle x availableCapacity with
      | none =>
          rw [haf] at hstep
          exact hacc c1 ev2 hstep
      | some expanded =>
          rw [haf] at hstep
          simp only at hstep
          split at hstep
          · have hc1 : c1 = x := by
              have := congrArg Prod.fst hstep
              simpa using this.symm
            subst hc1
            exact ⟨(addDeliveryIfFits_some haf).1 ▸ (addDeliveryIfFits_some haf).2,
              hl _ (List.mem_cons.mpr (Or.inl rfl))⟩
          · exact hacc c1 ev2 hstep

/-- Any candidate chosen by `findBestNext` fits the capacity and belongs to
the candidate list. -/
theorem findBestNext_spec {P : GeoPrims} {vehicle : ConsolidationVehicle}
    {vehiclePoint : LatLng} {weights : ScoringWeights} {trafficFactor : ℚ}
    {savingsMatrix : SavingsMatrix} {availableCapacity : ℚ}
    {candidates bundle : List ConsolidationDelivery} {currentEval : EvalResult}
    {c : ConsolidationDelivery} {ev1 : EvalResult}
    (h : findBestNext P vehicle vehiclePoint weights trafficFactor savingsMatrix
      availableCapacity candidates bundle currentEval = (some c, ev1)) :
    bundleWeight (bundle ++ [c]) ≤ availableCapacity ∧ c ∈ candidates := by
  unfold findBestNext at h
  refine foldl_findBestNextStep_spec P vehicle vehiclePoint weights
    trafficFactor savingsMatrix availableCapacity bundle candidates _ _ ?_ ?_ c
    ev1 h
  · intro c1 ev2 hacc
    exact absurd (congrArg Prod.fst hacc) (by simp)
  · intro x hx
    exact (List.mem_filter.mp hx).1

/-- The grown bundle stays within the available capacity and only ever adds
candidates. -/
theorem growBundle_spec (P : GeoPrims) (vehicle : ConsolidationVehicle)
    (vehiclePoint : LatLng) (weights : ScoringWeights) (trafficFactor : ℚ)
    (savingsMatrix : SavingsMatrix) (availableCapacity : ℚ)
    (candidates : List ConsolidationDelivery) :
    ∀ (fuel : ℕ) (bundle : List ConsolidationDelivery) (ev : EvalResult),
      bundleWeight bundle ≤ availableCapacity →
      bundleWeight (growBundle P vehicle vehiclePoint weights trafficFactor
          savingsMatrix availableCapacity candidates fuel bundle ev).1 ≤
        availableCapacity ∧
      (∀ d ∈ (growBundle P vehicle vehiclePoint weights trafficFactor
          savingsMatrix availableCapacity candidates fuel bundle ev).1,
        d ∈ bundle ∨ d ∈ candidates) := by
  intro fuel
  induction fuel with
  | zero =>
      intro bundle ev h
      exact ⟨h, fun d hd => Or.inl hd⟩
  | succ fuel ih =>
      intro bundle ev h
      simp only [growBundle]
      by_cases hlen : bundle.length < 4
      · rw [if_pos hlen]
        cases hfind : findBestNext P vehicle vehiclePoint weights trafficFactor
          savingsMatrix availableCapacity candidates bundle ev with
        | mk o evn =>
            cases o with
            | none => exact ⟨h, fun d hd => Or.inl hd⟩
            | some c =>
                obtain ⟨hw, hmem⟩ := findBestNext_spec hfind
                obtain ⟨hw2, hmem2⟩ := ih (bundle ++ [c]) evn hw
                refine ⟨hw2, ?_⟩
                intro d hd
                rcases hmem2 d hd with hd1 | hd1
                · rcases List.mem_append.mp hd1 with h2 | h2
                  · exact Or.inl h2
                  · rw [List.mem_singleton] at h2
                    subst h2
                    exact Or.inr hmem
                · exact Or.inr hd1
      · rw [if_neg hlen]
        exact ⟨h, fun d hd => Or.inl hd⟩

/-- Membership through the stable ordered insertion of candidate pairs. -/
theorem mem_of_mem_insertByKeyAsc {x y : ConsolidationDelivery × ℚ}
    {l : List (ConsolidationDelivery × ℚ)} (h : x ∈ insertByKeyAsc y l) :
    x = y ∨ x ∈ l := by
  induction l with
  | nil => simpa [insertByKeyAsc] using h
  | cons z zs ih =>
      simp only [insertByKeyAsc] at h
      split at h
      · rcases List.mem_cons.mp h with h1 | h1
        · exact Or.inr (List.mem_cons.mpr (Or.inl h1))
        · rcases ih h1 with h2 | h2
          · exact Or.inl h2
          · exact Or.inr (List.mem_cons.mpr (Or.inr h2))
      · rcases List.mem_cons.mp h with h1 | h1
        · exact Or.inl h1
        · exact Or.inr h1

/-- Membership through the stable sort of candidate pairs. -/
theorem mem_of_mem_sortByKeyAsc {x : ConsolidationDelivery × ℚ}
    {l : List (ConsolidationDelivery × ℚ)} (h : x ∈ sortByKeyAsc l) : x ∈ l := by
  induction l with
  | nil => simpa [sortByKeyAsc] using h
  | cons z zs ih =>
      simp only [sortByKeyAsc, List.foldr_cons] at h
      rcases mem_of_mem_insertByKeyAsc h with h1 | h1
      · exact List.mem_cons.mpr (Or.inl h1)
      · exact List.mem_cons.mpr (Or.inr (ih h1))

/-- Every selected candidate comes from the delivery list. -/
theorem pickVehicleCandidates_subset {P : GeoPrims} {vehiclePoint : LatLng}
    {deliveries : List ConsolidationDelivery} {d : ConsolidationDelivery}
    (h : d ∈ pickVehicleCandidates P vehiclePoint deliveries) : d ∈ deliveries := by
  unfold pickVehicleCandidates at h
  obtain ⟨pr, hpr, hfst⟩ := List.mem_map.mp h
  have hpr2 : pr ∈ sortByKeyAsc
      ((deliveries.map (fun d => (d, P.pd vehiclePoint (pickupPoint d)))).filter
        (fun item => item.2 ≤ 30)) := List.mem_of_mem_take hpr
  have hpr3 := (List.mem_filter.mp (mem_of_mem_sortByKeyAsc hpr2)).1
  obtain ⟨d0, hd0, hd0eq⟩ := List.mem_map.mp hpr3
  rw [← hfst, ← hd0eq]
  exact hd0

/-- Fold invariant of the per-seed pass: a produced suggestion names the
vehicle, stays within the available capacity and only bundles candidates. -/
theorem foldl_buildSeedStep_spec (P : GeoPrims)
    (vehicle : ConsolidationVehicle) (vehiclePoint : LatLng)
    (weights : ScoringWeights) (trafficFactor : ℚ)
    (savingsMatrix : SavingsMatrix) (availableCapacity : ℚ)
    (candidates : List ConsolidationDelivery) :
    ∀ (seeds : List ConsolidationDelivery)
      (acc : Option ConsolidationSuggestion),
      (∀ s, acc = some s → s.vehicleId = vehicle.id ∧
        bundleWeight s.orders ≤ availableCapacity ∧
        ∀ d ∈ s.orders, d ∈ candidates) →
      (∀ x ∈ seeds, x ∈ candidates) →
      ∀ s,
        seeds.foldl (buildSeedStep P vehicle vehiclePoint weights trafficFactor
          savingsMatrix availableCapacity candidates) acc = some s →
        s.vehicleId = vehicle.id ∧ bundleWeight s.orders ≤ availableCapacity ∧
          ∀ d ∈ s.orders, d ∈ candidates := by
  intro seeds
  induction seeds with
  | nil => intro acc hacc _ s h; exact hacc s h
  | cons seed rest ih =>
      intro acc hacc hl s h
      simp only [List.foldl_cons] at h
      refine ih _ ?_ (fun y hy => hl y (List.mem_cons.mpr (Or.inr hy))) s h
      intro s1 hstep
      unfold buildSeedStep at hstep
      cases haf : addDeliveryIfFits [] seed availableCapacity with
      | none =>
          rw [haf] at hstep
          exact hacc s1 hstep
      | some seedBundle =>
          rw [haf] at hstep
          simp only at hstep
          have hseedw : bundleWeight seedBundle ≤ availableCapacity :=
            (addDeliveryIfFits_some haf).2
          have hseedmem : ∀ d ∈ seedBundle, d ∈ candidates := by
            intro d hd
            rw [(addDeliveryIfFits_some haf).1] at hd
            simp only [List.nil_append, List.mem_singleton] at hd
            subst hd
            exact hl _ (List.mem_cons.mpr (Or.inl rfl))
          obtain ⟨hgw, hgm⟩ := growBundle_spec P vehicle vehiclePoint weights
            trafficFactor savingsMatrix availableCapacity candidates 4 seedBundle
            (evaluateBundleScore P seedBundle vehicle vehiclePoint weights
              trafficFactor) hseedw
          have hsug : ∀ s2, s2 = suggestionOfBundle vehicle
              (growBundle P vehicle vehiclePoint weights trafficFactor
                savingsMatrix availableCapacity candidates 4 seedBundle
                (evaluateBundleScore P seedBundle vehicle vehiclePoint weights
                  trafficFactor)).1
              (growBundle P vehicle vehiclePoint weights trafficFactor
                savingsMatrix availableCapacity candidates 4 seedBundle
                (evaluateBundleScore P seedBundle vehicle vehiclePoint weights
                  trafficFactor)).2 →
              s2.vehicleId = vehicle.id ∧
                bundleWeight s2.orders ≤ availableCapacity ∧
                ∀ d ∈ s2.orders, d ∈ candidates := by
            intro s2 hs2
            subst hs2
            refine ⟨rfl, hgw, ?_⟩
            intro d hd
            rcases hgm d hd with h1 | h1
            · exact hseedmem d h1
            · exact h1
          cases hbest : acc with
          | none =>
              rw [hbest] at hstep
              simp only [Option.some.injEq] at hstep
              exact hsug s1 hstep.symm
          | some best =>
              rw [hbest] at hstep
              simp only at hstep
              split at hstep
              · simp only [Option.some.injEq] at hstep
                exact hsug s1 hstep.symm
              · simp only [Option.some.injEq] at hstep
                subst hstep
                exact hacc best (by rw [hbest])

/-- A suggestion produced by `buildBestBundleForVehicle` names the vehicle,
keeps the bundle weight within the normalized available capacity, and bundles
only deliveries from the list it was given. -/
theorem buildBestBundleForVehicle_spec {P : GeoPrims}
    {vehicle : ConsolidationVehicle}
    {deliveries : List ConsolidationDelivery}
    {allVehicles : List ConsolidationVehicle} {s : ConsolidationSuggestion}
    (h : buildBestBundleForVehicle P vehicle deliveries allVehicles = some s) :
    s.vehicleId = vehicle.id ∧
    bundleWeight s.orders ≤
      normalizeWeight vehicle.capacity - normalizeWeight vehicle.current_load ∧
    ∀ d ∈ s.orders, d ∈ deliveries := by
  unfold buildBestBundleForVehicle at h
  cases hvp : normalizeVehiclePoint vehicle with
  | none => rw [hvp] at h; exact absurd h (by simp)
  | some vehiclePoint =>
      rw [hvp] at h
      simp only at h
      by_cases hav : max 0 (normalizeWeight vehicle.capacity -
          normalizeWeight vehicle.current_load) ≤ 0
      · rw [if_pos hav] at h
        exact absurd h (by simp)
      · rw [if_neg hav] at h
        have havail : max 0 (normalizeWeight vehicle.capacity -
            normalizeWeight vehicle.current_load) =
            normalizeWeight vehicle.capacity -
              normalizeWeight vehicle.current_load := by
          rcases le_or_lt (normalizeWeight vehicle.capacity -
            normalizeWeight vehicle.current_load) 0 with h1 | h1
          · exact absurd (max_le (le_refl 0) h1) hav
          · exact max_eq_right h1.le
        by_cases hce : (pickVehicleCandidates P vehiclePoint deliveries).isEmpty
        · rw [if_pos hce] at h
          exact absurd h (by simp)
        · rw [if_neg hce] at h
          have hspec := foldl_buildSeedStep_spec P vehicle vehiclePoint
            (getTrafficAwareWeights P vehicle allVehicles).weights
            (getTrafficAwareWeights P vehicle allVehicles).trafficFactor
            (buildSavingsMatrix P vehiclePoint
              (pickVehicleCandidates P vehiclePoint deliveries)
              (getTrafficAwareWeights P vehicle allVehicles).trafficFactor)
            (max 0 (normalizeWeight vehicle.capacity -
              normalizeWeight vehicle.current_load))
            (pickVehicleCandidates P vehiclePoint deliveries)
            (((sortByKeyAsc ((pickVehicleCandidates P vehiclePoint
                deliveries).map (fun d =>
                  (d, P.pd vehiclePoint (pickupPoint d))))).map Prod.fst).take 8)
            none (fun s1 hs1 => absurd hs1 (by simp)) ?_ s h
          · obtain ⟨h1, h2, h3⟩ := hspec
            refine ⟨h1, havail ▸ h2, ?_⟩
            intro d hd
            exact pickVehicleCandidates_subset (h3 d hd)
          · intro x hx
            obtain ⟨pr, hpr, hfst⟩ := List.mem_map.mp (List.mem_of_mem_take hx)
            obtain ⟨d0, hd0, hd0eq⟩ := List.mem_map.mp
              (mem_of_mem_sortByKeyAsc hpr)
            rw [← hfst, ← hd0eq]
            exact hd0

/-- Shifting the accumulator out of the weight fold. -/
theorem foldl_weight_shift (f : ConsolidationDelivery → ℚ) :
    ∀ (l : List ConsolidationDelivery) (a : ℚ),
      l.foldl (fun sum d => sum + f d) a =
        a + l.foldl (fun sum d => sum + f d) 0 := by
  intro l
  induction l with
  | nil => intro a; simp
  | cons d rest ih =>
      intro a
      simp only [List.foldl_cons]
      rw [ih (a + f d), ih (0 + f d)]
      ring

/-- With nonnegative weights the bundle weight is the plain sum of the raw
weights. -/
theorem bundleWeight_eq_sum_of_nonneg :
    ∀ {l : List ConsolidationDelivery}, (∀ d ∈ l, 0 ≤ d.weight) →
      bundleWeight l = (l.map (fun d => d.weight)).sum := by
  intro l
  induction l with
  | nil => intro _; rfl
  | cons d rest ih =>
      intro h
      simp only [bundleWeight, List.foldl_cons, List.map_cons, List.sum_cons]
      rw [foldl_weight_shift]
      have hd := h d (List.mem_cons.mpr (Or.inl rfl))
      rw [normalizeWeight_of_nonneg hd]
      have := ih (fun x hx => h x (List.mem_cons.mpr (Or.inr hx)))
      simp only [bundleWeight] at this
      rw [this]
      ring

/-- Membership through the stable ordered insertion of suggestions. -/
theorem mem_of_mem_insertByScoreDesc {x y : ConsolidationSuggestion}
    {l : List ConsolidationSuggestion} (h : x ∈ insertByScoreDesc y l) :
    x = y ∨ x ∈ l := by
  induction l with
  | nil => simpa [insertByScoreDesc] using h
  | cons z zs ih =>
      simp only [insertByScoreDesc] at h
      split at h
      · rcases List.mem_cons.mp h with h1 | h1
        · exact Or.inr (List.mem_cons.mpr (Or.inl h1))
        · rcases ih h1 with h2 | h2
          · exact Or.inl h2
          · exact Or.inr (List.mem_cons.mpr (Or.inr h2))
      · rcases List.mem_cons.mp h with h1 | h1
        · exact Or.inl h1
        · exact Or.inr h1

/-- Membership through the stable suggestion sort. -/
theorem mem_of_mem_sortByScoreDesc {x : ConsolidationSuggestion}
    {l : List ConsolidationSuggestion} (h : x ∈ sortByScoreDesc l) : x ∈ l := by
  induction l with
  | nil => simpa [sortByScoreDesc] using h
  | cons z zs ih =>
      simp only [sortByScoreDesc, List.foldr_cons] at h
      rcases mem_of_mem_insertByScoreDesc h with h1 | h1
      · exact List.mem_cons.mpr (Or.inl h1)
      · exact List.mem_cons.mpr (Or.inr (ih h1))

/-- The conflict-resolution pass only keeps suggestions of its input. -/
theorem dedupe_subset :
    ∀ (l : List ConsolidationSuggestion) (assignedIds : List String)
      (s : ConsolidationSuggestion), s ∈ dedupeSuggestions l assignedIds → s ∈ l := by
  intro l
  induction l with
  | nil => intro assignedIds s hs; simpa [dedupeSuggestions] using hs
  | cons s0 rest ih =>
      intro assignedIds s hs
      simp only [dedupeSuggestions] at hs
      by_cases hc : s0.deliveryIds.any (fun i => i ∈ assignedIds)
      · rw [if_pos hc] at hs
        exact List.mem_cons.mpr (Or.inr (ih assignedIds s hs))
      · rw [if_neg hc] at hs
        rcases List.mem_cons.mp hs with h | h
        · exact List.mem_cons.mpr (Or.inl h)
        · exact List.mem_cons.mpr (Or.inr (ih _ s h))

/-- Every suggestion of a `matchLoads` result was produced by
`buildBestBundleForVehicle` for some vehicle of the input list, on the
filtered eligible deliveries. -/
theorem mem_matchLoads_suggestions {P : GeoPrims}
    {vehicles : List ConsolidationVehicle}
    {deliveries : List ConsolidationDelivery} {s : ConsolidationSuggestion}
    (h : s ∈ (matchLoads P vehicles deliveries).suggestions) :
    ∃ v ∈ vehicles,
      buildBestBundleForVehicle P v (deliveries.filter isEligibleDelivery)
        vehicles = some s := by
  unfold matchLoads at h
  by_cases hc : ((deliveries.filter isEligibleDelivery).isEmpty ||
      vehicles.isEmpty) = true
  · rw [if_pos hc] at h
    exact absurd h (by simp)
  · rw [if_neg hc] at h
    simp only at h
    have h1 := dedupe_subset _ _ _ h
    have h2 := mem_of_mem_sortByScoreDesc h1
    obtain ⟨o, ho, hid⟩ := List.mem_filterMap.mp h2
    obtain ⟨v, hvmem, hveq⟩ := List.mem_map.mp ho
    refine ⟨v, hvmem, ?_⟩
    rw [hveq]
    simpa using hid

/-- C2: under the data-model ranges (delivery weights ≥ 0, vehicle capacity
and current load ≥ 0), every suggestion of a `matchLoads` result is for a
vehicle of the input list and its total raw bundle weight is at most that
vehicle's available capacity `capacity − current_load`. -/
theorem matchLoads_bundle_weight (P : GeoPrims)
    (vehicles : List ConsolidationVehicle)
    (deliveries : List ConsolidationDelivery)
    (hw : ∀ d ∈ deliveries, 0 ≤ d.weight)
    (hveh : ∀ v ∈ vehicles, 0 ≤ v.capacity ∧ 0 ≤ v.current_load) :
    ∀ s ∈ (matchLoads P vehicles deliveries).suggestions,
      ∃ v ∈ vehicles, s.vehicleId = v.id ∧
        (s.orders.map (fun d => d.weight)).sum ≤ v.capacity - v.current_load := by
  intro s hs
  obtain ⟨v, hvmem, hbuild⟩ := mem_matchLoads_suggestions hs
  obtain ⟨h1, h2, h3⟩ := buildBestBundleForVehicle_spec hbuild
  refine ⟨v, hvmem, h1, ?_⟩
  have hw2 : ∀ d ∈ s.orders, 0 ≤ d.weight := fun d hd =>
    hw d (List.mem_filter.mp (h3 d hd)).1
  rw [← bundleWeight_eq_sum_of_nonneg hw2]
  rw [normalizeWeight_of_nonneg (hveh v hvmem).1,
    normalizeWeight_of_nonneg (hveh v hvmem).2] at h2
  exact h2

/-- Witness for C2 at the spec's concrete scenario: a capacity-10 vehicle and
two pending deliveries of weight 4 and 8. -/
theorem matchLoads_bundle_weight_witness :
    (∀ d ∈ [dPendingTwin, dHeavy], 0 ≤ d.weight) ∧
    (∀ v ∈ [v0], 0 ≤ v.capacity ∧ 0 ≤ v.current_load) ∧
    ∀ s ∈ (matchLoads P0 [v0] [dPendingTwin, dHeavy]).suggestions,
      ∃ v ∈ [v0], s.vehicleId = v.id ∧
        (s.orders.map (fun d => d.weight)).sum ≤ v.capacity - v.current_load :=
  ⟨by decide, by decide,
    matchLoads_bundle_weight P0 [v0] [dPendingTwin, dHeavy] (by decide)
      (by decide)⟩

/-- Growing a bundle never consults the vehicle's status. -/
theorem growBundle_erase (P : GeoPrims) (v : ConsolidationVehicle)
    (vpt : LatLng) (w : ScoringWeights) (tf : ℚ) (sm : SavingsMatrix)
    (avail : ℚ) (cands : List ConsolidationDelivery) :
    ∀ (fuel : ℕ) (bundle : List ConsolidationDelivery) (ev : EvalResult),
      growBundle P (eraseStatus v) vpt w tf sm avail cands fuel bundle ev =
        growBundle P v vpt w tf sm avail cands fuel bundle ev := by
  intro fuel
  induction fuel with
  | zero => intro bundle ev; rfl
  | succ fuel ih =>
      intro bundle ev
      simp only [growBundle]
      by_cases hlen : bundle.length < 4
      · rw [if_pos hlen, if_pos hlen]
        rw [show findBestNext P (eraseStatus v) vpt w tf sm avail cands bundle ev =
          findBestNext P v vpt w tf sm avail cands bundle ev from rfl]
        cases hfind : findBestNext P v vpt w tf sm avail cands bundle ev with
        | mk o evn =>
            cases o with
            | none => rfl
            | some c => exact ih (bundle ++ [c]) evn
      · rw [if_neg hlen, if_neg hlen]

theorem buildSeedStep_erase (P : GeoPrims) (v : ConsolidationVehicle)
    (vpt : LatLng) (w : ScoringWeights) (tf : ℚ) (sm : SavingsMatrix)
    (avail : ℚ) (cands : List ConsolidationDelivery) :
    buildSeedStep P (eraseStatus v) vpt w tf sm avail cands =
      buildSeedStep P v vpt w tf sm avail cands := by
  funext best seed
  unfold buildSeedStep
  cases haf : addDeliveryIfFits [] seed avail with
  | none => rfl
  | some seedBundle =>
      simp only
      rw [show evaluateBundleScore P seedBundle (eraseStatus v) vpt w tf =
        evaluateBundleScore P seedBundle v vpt w tf from rfl]
      rw [growBundle_erase]
      rfl

theorem filter_length_map_erase (p : ConsolidationVehicle → Bool)
    (hp : ∀ v, p (eraseStatus v) = p v) :
    ∀ vs : List ConsolidationVehicle,
      ((vs.map eraseStatus).filter p).length = (vs.filter p).length := by
  intro vs
  induction vs with
  | nil => rfl
  | cons v rest ih =>
      simp only [List.map_cons, List.filter_cons, hp]
      split
      · simp [ih]
      · exact ih

theorem getTrafficAwareWeights_erase (P : GeoPrims) (v : ConsolidationVehicle)
    (vs : List ConsolidationVehicle) :
    getTrafficAwareWeights P (eraseStatus v) (vs.map eraseStatus) =
      getTrafficAwareWeights P v vs := by
  unfold getTrafficAwareWeights
  rw [show normalizeVehiclePoint (eraseStatus v) = normalizeVehiclePoint v from rfl]
  cases hvp : normalizeVehiclePoint v with
  | none => rfl
  | some vpt =>
      simp only
      rw [filter_length_map_erase (fun other =>
        if other.id = (eraseStatus v).id then false
        else match normalizeVehiclePoint other with
          | none => false
          | some point => decide (P.pd vpt point ≤ 6)) (fun o => rfl) vs]
      rfl


/-- The per-seed pass never consults the vehicle's status. -/
theorem buildBest_erase (P : GeoPrims) (v : ConsolidationVehicle)
    (ds : List ConsolidationDelivery) (vs : List ConsolidationVehicle) :
    buildBestBundleForVehicle P (eraseStatus v) ds (vs.map eraseStatus) =
      buildBestBundleForVehicle P v ds vs := by
  unfold buildBestBundleForVehicle
  rw [show normalizeVehiclePoint (eraseStatus v) = normalizeVehiclePoint v from rfl]
  cases hvp : normalizeVehiclePoint v with
  | none => rfl
  | some vpt =>
      simp only
      rw [show (eraseStatus v).capacity = v.capacity from rfl,
        show (eraseStatus v).current_load = v.current_load from rfl,
        getTrafficAwareWeights_erase, buildSeedStep_erase]

theorem matchLoads_erase (P : GeoPrims) (vs : List ConsolidationVehicle)
    (ds : List ConsolidationDelivery) :
    matchLoads P (vs.map eraseStatus) ds = matchLoads P vs ds := by
  unfold matchLoads
  have hemp : (vs.map eraseStatus).isEmpty = vs.isEmpty := by
    cases vs <;> rfl
  rw [hemp]
  by_cases hc : ((ds.filter isEligibleDelivery).isEmpty || vs.isEmpty) = true
  · rw [if_pos hc, if_pos hc]
  · rw [if_neg hc, if_neg hc]
    have hmap : (vs.map eraseStatus).map (fun v =>
        buildBestBundleForVehicle P v (ds.filter isEligibleDelivery)
          (vs.map eraseStatus)) =
        vs.map (fun v =>
          buildBestBundleForVehicle P v (ds.filter isEligibleDelivery) vs) := by
      rw [List.map_map]
      refine List.map_congr_left ?_
      intro v hv
      exact buildBest_erase P v (ds.filter isEligibleDelivery) vs
    rw [hmap]



/-- C10: `matchLoads` never consults a vehicle's status: two vehicle lists
that agree after forgetting statuses (identical ids, capacities, current
loads and positions) give identical `ConsolidationResult`s, so even a vehicle
whose status marks it inactive still receives suggestions. -/
theorem matchLoads_status_independent (P : GeoPrims)
    (vs1 vs2 : List ConsolidationVehicle) (ds : List ConsolidationDelivery)
    (h : vs1.map eraseStatus = vs2.map eraseStatus) :
    matchLoads P vs1 ds = matchLoads P vs2 ds := by
  rw [← matchLoads_erase P vs1 ds, h, matchLoads_erase]

/-- Witness for C10: an active and an inactive copy of the same vehicle get
the same result, and the inactive one still receives a suggestion. -/
theorem matchLoads_status_independent_witness :
    ([v0].map eraseStatus = [v0Inactive].map eraseStatus) ∧
    matchLoads P0 [v0] [dPendingTwin] = matchLoads P0 [v0Inactive] [dPendingTwin] ∧
    (matchLoads P0 [v0Inactive] [dPendingTwin]).suggestions.length = 1 :=
  ⟨by with_unfolding_all rfl,
    matchLoads_status_independent P0 [v0] [v0Inactive] [dPendingTwin]
      (by with_unfolding_all rfl),
    by with_unfolding_all rfl⟩

/-- C6: for every edge and context, `calculateEdgeCost` agrees with the
spec's reference cost definition (travel time, carbon, pollution exposure,
battery and restricted penalties combined per mode), and the spec's concrete
scenario — distance 10, congestion 0, aqi 0, unrestricted, battery 100,
fastest mode — costs exactly 20. -/
theorem calculateEdgeCost_matches_spec :
    (∀ (e : Edge) (ctx : RouteContext), calculateEdgeCost e ctx = specEdgeCost e ctx) ∧
    calculateEdgeCost straightEdgeAB fullBatteryFastest = 20 := by
  constructor
  · intro e ctx
    obtain ⟨b, a, m⟩ := ctx
    cases m <;> simp [calculateEdgeCost, specEdgeCost]
  · norm_num [calculateEdgeCost, straightEdgeAB, fullBatteryFastest]

/-- C7: for every edge whose fields satisfy the data-model ranges
(distance ≥ 0, congestion in [0,1], AQI in [0,500]), the edge cost is
nonnegative under every mode, battery level and restricted flag. -/
theorem calculateEdgeCost_nonneg (e : Edge) (ctx : RouteContext)
    (hd : 0 ≤ e.distance) (hc0 : 0 ≤ e.congestion) (hc1 : e.congestion ≤ 1)
    (ha0 : 0 ≤ e.aqi) (ha1 : e.aqi ≤ 500) :
    0 ≤ calculateEdgeCost e ctx := by
  obtain ⟨b, a, m⟩ := ctx
  have ht : 0 ≤ e.distance * (1 + e.congestion) := mul_nonneg hd (by linarith)
  have hcar : 0 ≤ e.distance * (2/10) := by positivity
  have hbat : 0 ≤ (if b < 25 then e.distance * 3 else 0 : ℚ) := by
    split
    · positivity
    · exact le_refl 0
  have hres : 0 ≤ (if e.restricted then 10000 else 0 : ℚ) := by
    split
    · norm_num
    · exact le_refl 0
  cases m <;> simp only [calculateEdgeCost] <;> linarith

/-- Witness for C7 at the concrete straight edge of the spec scenario. -/
theorem calculateEdgeCost_nonneg_witness :
    (0 ≤ straightEdgeAB.distance ∧ 0 ≤ straightEdgeAB.congestion ∧
      straightEdgeAB.congestion ≤ 1 ∧ 0 ≤ straightEdgeAB.aqi ∧
      straightEdgeAB.aqi ≤ 500) ∧
    0 ≤ calculateEdgeCost straightEdgeAB fullBatteryFastest :=
  ⟨by norm_num [straightEdgeAB],
    calculateEdgeCost_nonneg straightEdgeAB fullBatteryFastest
      (by norm_num [straightEdgeAB]) (by norm_num [straightEdgeAB])
      (by norm_num [straightEdgeAB]) (by norm_num [straightEdgeAB])
      (by norm_num [straightEdgeAB])⟩

end UrbanFlow
